import Mathlib

/-!
# podscanner: the scan-and-collect pipeline of `cmd/root.go`

A shallow embedding of `cmd/root.go`.

* Go strings are embedded as Lean `String`s.  `strings.Contains` and the
  comparison `<` of Go act on the bytes of a string; here they act on its
  characters (`String.data`), which agrees with the byte-wise reading on
  well-formed UTF-8 text (Kubernetes names and image references are ASCII).
* The cluster client (client-go) is an external collaborator.  It is embedded
  as a `Cluster` value from which the three listing calls used by the program
  are answered; a listing call can fail.
* `handleError` panics.  A panic is an explicit result (`Go.panic`).
* The goroutines of `rootCmd.Run` are embedded as a small-step machine driven
  by a schedule, which says which worker moves next; after the schedule every
  worker is run until it has finished or is blocked on the full channel.
* `sort.Sort` belongs to the Go standard library.  It is embedded by its
  documented contract (`SortImpl`): it permutes the slice so that afterwards
  `Less(j, i)` is false for all `i < j`; stability is not part of the contract.
-/

namespace Podscanner

/-! ## Data model -/

/-- The Go `error` values of the program; only their message is used (`err.Error()`). -/
abbrev GoError := String

/-- Source: `type identifiedWorkload struct { containerName, namespace, image, pod string }`.
The field `namespace` is written `namespace_`, the source's name being a keyword. -/
structure identifiedWorkload where
  containerName : String
  namespace_ : String
  image : String
  pod : String
deriving DecidableEq, Repr, Inhabited

/-- A container of a pod spec (`corev1.Container`): the two fields the program reads. -/
structure Container where
  Name : String
  Image : String
deriving DecidableEq, Repr

/-- A pod as returned by a pod listing (`corev1.Pod`): `Namespace` and `Name` of
its metadata and `Spec.Containers`. -/
structure Pod where
  Namespace : String
  Name : String
  Containers : List Container
deriving DecidableEq, Repr

/-! ## `strings.Contains` -/

/-- Whether `substr` occurs in `s` starting at some position (character lists). -/
def containsChars (substr : List Char) : List Char → Bool
  | [] => substr.isEmpty
  | c :: s => substr.isPrefixOf (c :: s) || containsChars substr s

/-- Go's `strings.Contains(s, substr)`: reports whether `substr` is within `s`. -/
def strings.Contains (s substr : String) : Bool :=
  containsChars substr.data s.data

/-- The test of line 187 of `getPodsPerNamespace`:
`strings.Contains(container.Image, "latest") == true || strings.Contains(container.Image, ":") == false`. -/
def unpinned (image : String) : Bool :=
  (strings.Contains image "latest" == true) || (strings.Contains image ":" == false)

/-- The part of an image reference after its last `:` (its tag), if it has a `:`.
This is the reading of "the `:`-delimited tag" used to state the tag claims. -/
def tagChars : List Char → Option (List Char)
  | [] => none
  | c :: s =>
    match tagChars s with
    | some t => some t
    | none => if c = ':' then some s else none

/-! ## The cluster client -/

/-- A request sent to the cluster by the client. `listPods ""` is the pod listing
across all namespaces (`Pods("")`, i.e. `metav1.NamespaceAll`). -/
inductive ApiCall where
  | listNamespaces : ApiCall
  | listPods (ns : String) : ApiCall
deriving DecidableEq, Repr

/-- The state of the cluster the client talks to, with the failures its listing
calls meet: `listPodsErr ns` is the error of the pod listing of `ns` (for `""`,
of the listing across all namespaces), if it fails. -/
structure Cluster where
  namespaces : List String
  pods : List Pod
  listNamespacesErr : Option GoError
  listPodsErr : String → Option GoError

/-- The client (`*kubernetes.Clientset`) together with the requests it has sent. -/
structure Clientset where
  cluster : Cluster
  calls : List ApiCall

/-- The call `c.CoreV1().Namespaces().List(ctx, metav1.ListOptions{})`: the names of
the items, in the order the cluster returns them. -/
def Clientset.listNamespaces (c : Clientset) : Except GoError (List String) × Clientset :=
  let c1 : Clientset := { c with calls := c.calls ++ [ApiCall.listNamespaces] }
  match c.cluster.listNamespacesErr with
  | some err => (.error err, c1)
  | none => (.ok c.cluster.namespaces, c1)

/-- The pods a pod listing of `ns` returns: all pods for `""`, else those of `ns`. -/
def Cluster.podsOf (cl : Cluster) (ns : String) : List Pod :=
  if ns = "" then cl.pods else cl.pods.filter (fun p => p.Namespace = ns)

/-- The call `clientSet.CoreV1().Pods(ns).List(ctx, metav1.ListOptions{})`. -/
def Clientset.listPods (c : Clientset) (ns : String) : Except GoError (List Pod) × Clientset :=
  let c1 : Clientset := { c with calls := c.calls ++ [ApiCall.listPods ns] }
  match c.cluster.listPodsErr ns with
  | some err => (.error err, c1)
  | none => (.ok (c.cluster.podsOf ns), c1)

/-! ## Panics -/

/-- The result of Go code that may panic. -/
inductive Go (α : Type) where
  | panic (msg : String) : Go α
  | ret (a : α) : Go α

/-- Source: `func handleError(err error) { panic(err.Error()) }`. -/
def handleError {α : Type} (err : GoError) : Go α := Go.panic err

/-! ## `byNamespace` and `sort.Sort` -/

/-- Source: `func (n byNamespace) Len() int { return len(n) }`. -/
def byNamespace.Len (n : List identifiedWorkload) : Nat := n.length

/-- Source: `func (n byNamespace) Less(i, j int) bool { return n[i].namespace < n[j].namespace }`
(for indices in range). -/
def byNamespace.Less (n : List identifiedWorkload) (i j : Nat) : Bool :=
  decide ((n.getD i default).namespace_.data < (n.getD j default).namespace_.data)

/-- Source: `func (n byNamespace) Swap(i, j int) { n[i], n[j] = n[j], n[i] }`
(for indices in range). -/
def byNamespace.Swap (n : List identifiedWorkload) (i j : Nat) : List identifiedWorkload :=
  (n.set i (n.getD j default)).set j (n.getD i default)

/-- The contract of `sort.Sort` of the Go standard library, at `byNamespace`:
"Sort sorts data in ascending order as determined by the Less method. ... The sort
is not guaranteed to be stable."  The slice is rearranged (by `Swap`s, hence
permuted) so that afterwards `Less(j, i)` is false whenever `i < j`. -/
structure SortImpl where
  sort : List identifiedWorkload → List identifiedWorkload
  perm : ∀ n, (sort n).Perm n
  sorted : ∀ n i j, i < j → j < byNamespace.Len (sort n) →
    byNamespace.Less (sort n) j i = false

/-- The order `a.namespace <= b.namespace` on records. -/
def nsLE (a b : identifiedWorkload) : Prop := a.namespace_.data ≤ b.namespace_.data

instance nsLE.decidable : DecidableRel nsLE :=
  fun a b => inferInstanceAs (Decidable (a.namespace_.data ≤ b.namespace_.data))

/-- A function that returns a sorted permutation of its argument meets the
contract of `sort.Sort`. -/
def SortImpl.ofSorted (f : List identifiedWorkload → List identifiedWorkload)
    (hperm : ∀ n, (f n).Perm n) (hsorted : ∀ n, (f n).Sorted nsLE) : SortImpl where
  sort := f
  perm := hperm
  sorted := by
    intro n i j hij hj
    have hj1 : j < (f n).length := hj
    have hi1 : i < (f n).length := lt_trans hij hj1
    have h := List.pairwise_iff_getElem.mp (hsorted n) i j hi1 hj1 hij
    simp only [byNamespace.Less, decide_eq_false_iff_not, not_lt]
    rw [List.getD_eq_getElem _ _ hi1, List.getD_eq_getElem _ _ hj1]
    exact h

/-- Insertion sort by namespace, which keeps equal namespaces in their order. -/
def stableSort : SortImpl :=
  SortImpl.ofSorted (List.insertionSort nsLE)
    (fun n => List.perm_insertionSort nsLE n)
    (fun n =>
      haveI : IsTotal identifiedWorkload nsLE := ⟨fun a b => le_total a.namespace_.data b.namespace_.data⟩
      haveI : IsTrans identifiedWorkload nsLE := ⟨fun _ _ _ h1 h2 => le_trans h1 h2⟩
      List.sorted_insertionSort nsLE n)

/-- A pass with gap 6 over the slice: for `i` from 6 on, `Swap(i, i-6)` when
`Less(i, i-6)`. -/
def shellPass (n : List identifiedWorkload) : List identifiedWorkload :=
  (List.range (byNamespace.Len n - 6)).foldl (fun data k =>
    if byNamespace.Less data (k + 6) k then byNamespace.Swap data (k + 6) k else data) n

/-- The gap-6 pass followed by insertion sort. It meets the contract of
`sort.Sort` (it is the way `sort.Sort` of the Go releases before 1.19 sorts a slice
of at most 12 elements) and does not keep equal namespaces in their order. -/
def shellThenInsertionSort : SortImpl :=
  SortImpl.ofSorted (fun n => List.insertionSort nsLE (shellPass n))
    (fun n => by
      have swap_perm : ∀ (l : List identifiedWorkload) (i j : Nat), i < l.length →
          j < l.length → (byNamespace.Swap l i j).Perm l := by
        intro l i j hi hj
        rw [List.perm_iff_count]
        intro b
        have hx : l.getD i default = l[i] := List.getD_eq_getElem _ _ hi
        have hy : l.getD j default = l[j] := List.getD_eq_getElem _ _ hj
        unfold byNamespace.Swap
        generalize l.getD i default = x at hx ⊢
        generalize l.getD j default = y at hy ⊢
        have hj' : j < (l.set i y).length := by simpa using hj
        rw [List.count_set _ _ _ _ hj', List.count_set _ _ _ _ hi]
        have hget : (l.set i y)[j] = y := by
          rw [List.getElem_set]
          split
          · rfl
          · exact hy.symm
        rw [hget, ← hx]
        have h1 : (if (x == b) = true then 1 else 0) ≤ l.count b := by
          split
          · rename_i h
            have : x = b := by simpa using h
            exact List.count_pos_iff.mpr (this ▸ hx ▸ List.getElem_mem hi)
          · omega
        by_cases hxb : (x == b) = true <;> by_cases hyb : (y == b) = true <;>
          simp only [hxb, hyb, if_true, if_false] at h1 ⊢ <;> omega
      have pass : ∀ (ks : List Nat) (l : List identifiedWorkload),
          (∀ k ∈ ks, k + 6 < l.length) →
          (ks.foldl (fun data k =>
            if byNamespace.Less data (k + 6) k then byNamespace.Swap data (k + 6) k
            else data) l).Perm l := by
        intro ks
        induction ks with
        | nil => intro l _; exact List.Perm.refl _
        | cons k ks ih =>
          intro l hk
          rw [List.foldl_cons]
          have hk6 : k + 6 < l.length := hk k (List.mem_cons_self _ _)
          have hstep : (if byNamespace.Less l (k + 6) k then byNamespace.Swap l (k + 6) k
              else l).Perm l := by
            split
            · exact swap_perm l _ _ hk6 (by omega)
            · exact List.Perm.refl _
          refine (ih _ ?_).trans hstep
          intro k' hk'
          rw [hstep.length_eq]
          exact hk k' (List.mem_cons_of_mem _ hk')
      have hpass : (shellPass n).Perm n := by
        apply pass
        intro k hk
        have := List.mem_range.mp hk
        simp only [byNamespace.Len] at this
        omega
      exact (List.perm_insertionSort nsLE (shellPass n)).trans hpass)
    (fun n =>
      haveI : IsTotal identifiedWorkload nsLE := ⟨fun a b => le_total a.namespace_.data b.namespace_.data⟩
      haveI : IsTrans identifiedWorkload nsLE := ⟨fun _ _ _ h1 h2 => le_trans h1 h2⟩
      List.sorted_insertionSort nsLE (shellPass n))

/-! ## The functions of `cmd/root.go` -/

/-- Source: `getTotalNumberOfContainers` (lines 221-233). -/
def getTotalNumberOfContainers (clientSet : Clientset) : Except GoError Nat × Clientset :=
  let numberOfContainers := 0
  match clientSet.listPods "" with
  | (.error err, cs) => (.error err, cs)
  | (.ok pods, cs) =>
    (.ok (pods.foldl (fun numberOfContainers pod => numberOfContainers + pod.Containers.length)
      numberOfContainers), cs)

/-- Source: `getNamespaces` (lines 163-175). On a failed listing `handleError`
panics, so the `return listOfNamespaces, err` after it is never reached. -/
def getNamespaces (c : Clientset) : Go (List String × Option GoError) × Clientset :=
  let listOfNamespaces : List String := []
  match c.listNamespaces with
  | (.error err, cs) => (handleError err, cs)
  | (.ok items, cs) =>
    (.ret (items.foldl (fun listOfNamespaces name => listOfNamespaces ++ [name]) listOfNamespaces,
      none), cs)

/-- The loops of `getPodsPerNamespace` (lines 185-197) over the pods of a
successful listing. The writes `c <- cont` to the channel are collected in the
order they are made; whether a write can proceed is decided by the channel (see
`step`). -/
def getPodsPerNamespace.writes (namespace_ : String) (pods : List Pod) :
    List identifiedWorkload :=
  pods.foldl (fun c pod =>
    pod.Containers.foldl (fun c container =>
      if unpinned container.Image then
        let cont : identifiedWorkload :=
          { containerName := container.Name
            namespace_ := namespace_
            image := container.Image
            pod := pod.Name }
        c ++ [cont]
      else c) c) []

/-- Source: `getPodsPerNamespace` (lines 179-200): the writes to the channel and
the returned error, which is always `nil`. On a failed listing `handleError`
panics. -/
def getPodsPerNamespace (namespace_ : String) (clientSet : Clientset) :
    Go (List identifiedWorkload × Option GoError) × Clientset :=
  match clientSet.listPods namespace_ with
  | (.error err, cs) => (handleError err, cs)
  | (.ok pods, cs) => (.ret (getPodsPerNamespace.writes namespace_ pods, none), cs)

/-! ## The goroutines of `rootCmd.Run` -/

/-- A worker goroutine `go func(n string) {...}(namespace)` of lines 115-120:
spawned for namespace `n` and not yet run, or inside `getPodsPerNamespace` with
the writes `rest` still to make. `running []` has returned and called `wg.Done()`. -/
inductive Goroutine where
  | spawned (n : String) : Goroutine
  | running (rest : List identifiedWorkload) : Goroutine
deriving DecidableEq, Repr

/-- The writes a goroutine has still to make, when the listing of its namespace
succeeds in cluster `cl`. -/
def Goroutine.pending (cl : Cluster) : Goroutine → List identifiedWorkload
  | .spawned n => getPodsPerNamespace.writes n (cl.podsOf n)
  | .running rest => rest

/-- Whether the goroutine has called `wg.Done()`. -/
def Goroutine.finished : Goroutine → Bool
  | .running [] => true
  | _ => false

/-- The state of the concurrent phase: the client, the worker goroutines, the
contents of the buffered channel `messages` and the message of a panic, if any. -/
structure ScanState where
  clientset : Clientset
  goroutines : List Goroutine
  messages : List identifiedWorkload
  panicked : Option String

/-- One move of worker `i`, the channel having capacity `cap`. A panic stops
the process. A spawned worker runs `getPodsPerNamespace` up to its first write.
A running worker makes its next write `c <- cont` if the channel has room, and
cannot move otherwise (nothing is received before `wg.Wait()` returns). -/
def step (cap : Nat) (st : ScanState) (i : Nat) : ScanState :=
  match st.panicked with
  | some _ => st
  | none =>
    match st.goroutines.get? i with
    | none => st
    | some (.spawned n) =>
      match getPodsPerNamespace n st.clientset with
      | (.panic msg, cs) => { st with clientset := cs, panicked := some msg }
      | (.ret (_, some err), cs) => { st with clientset := cs, panicked := some err }
      | (.ret (sends, none), cs) =>
        { st with clientset := cs, goroutines := st.goroutines.set i (.running sends) }
    | some (.running []) => st
    | some (.running (cont :: rest)) =>
      if st.messages.length < cap then
        { st with messages := st.messages ++ [cont],
                  goroutines := st.goroutines.set i (.running rest) }
      else st

/-- Every worker in turn is given `cap + 1` moves, after which it has finished
or is blocked on the full channel: the scheduler leaves no worker behind. -/
def completion (workers cap : Nat) : List Nat :=
  (List.range workers).flatMap (fun i => List.replicate (cap + 1) i)

/-- How a run ends: the table is rendered from the records handed to
`displayWorkloads`, or the process dies of a panic, or `wg.Wait()` never returns
because a worker is blocked on the full channel. -/
inductive Outcome where
  | report (listOfWorkloads : List identifiedWorkload) : Outcome
  | fatal (msg : String) : Outcome
  | blocked : Outcome
deriving DecidableEq, Repr

/-- The end of a run and the requests that were sent to the cluster. -/
structure RunResult where
  outcome : Outcome
  calls : List ApiCall

/-- The end state of the concurrent phase (lines 104-123): the workers move as
the schedule `sched` says, one entry per move, and then to completion. -/
def scan (clientset : Clientset) (listOfNamespaces : List String) (numberOfContainers : Nat)
    (sched : List Nat) : ScanState :=
  (sched ++ completion listOfNamespaces.length numberOfContainers).foldl
    (step numberOfContainers)
    { clientset := clientset
      goroutines := listOfNamespaces.map Goroutine.spawned
      messages := []
      panicked := none }

/-- Lines 103-134 of `rootCmd.Run`: one goroutine per namespace, `wg.Wait()`,
`close(messages)`, the drain loop, `sort.Sort(byNamespace(listOfWorkloads))` and
`displayWorkloads(listOfWorkloads)`. -/
def dispatch (S : SortImpl) (clientset : Clientset) (listOfNamespaces : List String)
    (numberOfContainers : Nat) (sched : List Nat) : RunResult :=
  let st := scan clientset listOfNamespaces numberOfContainers sched
  match st.panicked with
  | some msg => { outcome := .fatal msg, calls := st.clientset.calls }
  | none =>
    if st.goroutines.all Goroutine.finished then
      let listOfWorkloads :=
        st.messages.foldl (fun listOfWorkloads element => listOfWorkloads ++ [element]) []
      { outcome := .report (S.sort listOfWorkloads), calls := st.clientset.calls }
    else { outcome := .blocked, calls := st.clientset.calls }

/-- Line 86: `numberOfContainers += numberOfContainers / 10`, the capacity of the channel. -/
def channelCapacity (numberOfContainers : Nat) : Nat :=
  numberOfContainers + numberOfContainers / 10

/-- Lines 90-101 of `rootCmd.Run`: the namespaces to scan. -/
def targetNamespaces (namespaceFromFlag : String) (clientset : Clientset) :
    Go (List String) × Clientset :=
  let listOfNamespaces : List String := []
  if namespaceFromFlag != "" then
    (.ret (listOfNamespaces ++ [namespaceFromFlag]), clientset)
  else
    match getNamespaces clientset with
    | (.panic msg, cs) => (.panic msg, cs)
    | (.ret (_, some err), cs) => (handleError err, cs)
    | (.ret (listOfNamespaces, none), cs) => (.ret listOfNamespaces, cs)

/-- Source: `rootCmd.Run` from line 77 on, the client being built; the inputs are
the cluster, the value of the `--namespace` flag and the schedule of the workers. -/
def rootCmd.Run (S : SortImpl) (cluster : Cluster) (namespaceFromFlag : String)
    (sched : List Nat) : RunResult :=
  let clientset : Clientset := { cluster := cluster, calls := [] }
  match getTotalNumberOfContainers clientset with
  | (.error err, cs) => { outcome := .fatal err, calls := cs.calls }
  | (.ok numberOfContainers, cs) =>
    let numberOfContainers := channelCapacity numberOfContainers
    match targetNamespaces namespaceFromFlag cs with
    | (.panic msg, cs) => { outcome := .fatal msg, calls := cs.calls }
    | (.ret listOfNamespaces, cs) =>
      dispatch S cs listOfNamespaces numberOfContainers sched

/-! ## The words of the specification -/

/-- The records the specification asks of the per-namespace scanner: in pod order
and then container order, one record per container with an unpinned image. -/
def scanRecords (n : String) (pods : List Pod) : List identifiedWorkload :=
  pods.flatMap (fun pod =>
    (pod.Containers.filter (fun container => unpinned container.Image)).map
      (fun container =>
        { containerName := container.Name, namespace_ := n,
          image := container.Image, pod := pod.Name }))

/-- A cluster with six unpinned containers in namespace `a` and one in namespace `b`. -/
def sevenCluster : Cluster where
  namespaces := ["a", "b"]
  pods :=
    [ { Namespace := "a", Name := "web",
        Containers := [{ Name := "c1", Image := "nginx" }, { Name := "c2", Image := "nginx" },
          { Name := "c3", Image := "nginx" }, { Name := "c4", Image := "nginx" },
          { Name := "c5", Image := "nginx" }, { Name := "c6", Image := "nginx" }] },
      { Namespace := "b", Name := "db", Containers := [{ Name := "c7", Image := "redis" }] } ]
  listNamespacesErr := none
  listPodsErr := fun _ => none

/-- The records of `sevenCluster` as the channel holds them when the worker of
`b` writes before the worker of `a`. -/
def drainedSeven : List identifiedWorkload :=
  [⟨"c7", "b", "redis", "db"⟩, ⟨"c1", "a", "nginx", "web"⟩, ⟨"c2", "a", "nginx", "web"⟩,
    ⟨"c3", "a", "nginx", "web"⟩, ⟨"c4", "a", "nginx", "web"⟩, ⟨"c5", "a", "nginx", "web"⟩,
    ⟨"c6", "a", "nginx", "web"⟩]

/-- The sort keeps the records of every namespace in the order they have in `l`:
what it means for the sort to be stable on `l`. -/
def keepsTies (S : SortImpl) (l : List identifiedWorkload) : Prop :=
  ∀ n : String, (S.sort l).filter (fun r => r.namespace_ = n) =
    l.filter (fun r => r.namespace_ = n)

/-- The order invariant of the concurrent phase: the records of namespace `n` in
the channel, followed by the writes its worker has still to make, are the writes
of that worker in scanner order. -/
def OrderInv (cl : Cluster) (targets : List String) (st : ScanState) : Prop :=
  ∀ (i : Nat) (n : String) (g : Goroutine), targets[i]? = some n →
    st.goroutines[i]? = some g →
    st.messages.filter (fun r => r.namespace_ = n) ++ g.pending cl =
      getPodsPerNamespace.writes n (cl.podsOf n)

/-- The cluster of the end-to-end scenario in which the pod listing of namespace
`a` fails. -/
def failingCluster : Cluster where
  namespaces := ["a", "b"]
  pods :=
    [ { Namespace := "a", Name := "pod", Containers := [{ Name := "c1", Image := "redis" }] },
      { Namespace := "b", Name := "pod",
        Containers := [{ Name := "c2", Image := "redis:7.2" }, { Name := "c3", Image := "app:latest" }] } ]
  listNamespacesErr := none
  listPodsErr := fun n => if n = "a" then some "pods is forbidden" else none

/-- The cluster of the end-to-end scenario: namespaces `a` and `b`, one pod each. -/
def exampleCluster : Cluster where
  namespaces := ["a", "b"]
  pods :=
    [ { Namespace := "a", Name := "pod", Containers := [{ Name := "c1", Image := "redis" }] },
      { Namespace := "b", Name := "pod",
        Containers := [{ Name := "c2", Image := "redis:7.2" }, { Name := "c3", Image := "app:latest" }] } ]
  listNamespacesErr := none
  listPodsErr := fun _ => none

/-! ## Notions used to reason about the goroutines -/

/-- All the writes the workers of the namespaces `targets` make in cluster `cl`,
worker after worker. -/
def allWrites (cl : Cluster) (targets : List String) : List identifiedWorkload :=
  targets.flatMap (fun n => getPodsPerNamespace.writes n (cl.podsOf n))

/-- The number of moves a goroutine needs to finish when no write blocks. -/
def Goroutine.remaining (cl : Cluster) : Goroutine → Nat
  | .spawned n => (getPodsPerNamespace.writes n (cl.podsOf n)).length + 1
  | .running rest => rest.length

/-- The invariant of the concurrent phase while no listing fails: no panic, the
cluster is the same, worker `i` scans the `i`-th namespace, and the channel
together with the writes still to come holds the writes of all workers. -/
structure ScanInv (cl : Cluster) (targets : List String) (st : ScanState) : Prop where
  noPanic : st.panicked = none
  sameCluster : st.clientset.cluster = cl
  len : st.goroutines.length = targets.length
  spawnedAt : ∀ (i : Nat) (n : String),
    st.goroutines[i]? = some (Goroutine.spawned n) → targets[i]? = some n
  perm : (st.messages ++ st.goroutines.flatMap (Goroutine.pending cl)).Perm (allWrites cl targets)

/-- The total number of containers of the cluster. -/
def Cluster.containerCount (cl : Cluster) : Nat :=
  (cl.pods.map (fun pod => pod.Containers.length)).sum

/-! ## Lemmas on `strings.Contains` -/

theorem containsChars_iff_isInfix (substr s : List Char) :
    containsChars substr s = true ↔ substr <:+: s := by
  induction s with
  | nil =>
    cases substr <;> simp [containsChars]
  | cons c s ih =>
    rw [containsChars, Bool.or_eq_true, ih, List.isPrefixOf_iff_prefix, List.infix_cons_iff]

theorem containsChars_singleton_iff_mem (c : Char) (s : List Char) :
    containsChars [c] s = true ↔ c ∈ s := by
  induction s with
  | nil => simp [containsChars]
  | cons d s ih =>
    rw [containsChars, Bool.or_eq_true, ih]
    simp [List.isPrefixOf]

/-! ## The unpinned-image predicate -/

/-- C1: the unpinned-image predicate is true exactly when the image contains the
literal substring "latest" or contains no ':' character; in particular it is true
for every image without ':' and for every image containing "latest" anywhere, and
it holds of "nginx" and of "myapp:latestbuild". -/
theorem C1_unpinned_iff :
    (∀ s : String, unpinned s = true ↔
        (("latest" : String).data <:+: s.data ∨ ':' ∉ s.data)) ∧
    (∀ s : String, ':' ∉ s.data → unpinned s = true) ∧
    (∀ s : String, ("latest" : String).data <:+: s.data → unpinned s = true) ∧
    unpinned "nginx" = true ∧ unpinned "myapp:latestbuild" = true := by
  have key : ∀ s : String, unpinned s = true ↔
      (("latest" : String).data <:+: s.data ∨ ':' ∉ s.data) := by
    intro s
    have h1 := containsChars_iff_isInfix ("latest" : String).data s.data
    have h2 := containsChars_singleton_iff_mem ':' s.data
    have h3 : (":" : String).data = [':'] := rfl
    simp only [unpinned, strings.Contains, h3, Bool.or_eq_true, beq_iff_eq, h1]
    constructor
    · rintro (h | h)
      · exact Or.inl h
      · right
        intro hm
        rw [h2.mpr hm] at h
        exact Bool.noConfusion h
    · rintro (h | h)
      · exact Or.inl h
      · right
        cases hc : containsChars [':'] s.data
        · rfl
        · exact absurd (h2.mp hc) h
  refine ⟨key, fun s h => (key s).mpr (Or.inr h), fun s h => (key s).mpr (Or.inl h), ?_, ?_⟩
  · decide
  · decide

/-- C3: the image "mylatestbuild:v2" has the ':'-delimited tag "v2", which does
not contain "latest", and yet the test of line 187 is true for it; an image with
a ':' is rejected only when "latest" occurs nowhere in it, as for "nginx:1.25.3". -/
theorem C3_tag_without_latest_still_matches :
    tagChars ("mylatestbuild:v2" : String).data = some ("v2" : String).data ∧
    containsChars ("latest" : String).data ("v2" : String).data = false ∧
    unpinned "mylatestbuild:v2" = true ∧
    unpinned "nginx:1.25.3" = false := by
  refine ⟨?_, ?_, ?_, ?_⟩ <;> decide

/-! ## The per-namespace scanner -/

theorem writes_inner (n : String) (pod : Pod) (cs : List Container) :
    ∀ acc : List identifiedWorkload,
      cs.foldl (fun c container =>
        if unpinned container.Image then
          c ++ [(⟨container.Name, n, container.Image, pod.Name⟩ : identifiedWorkload)]
        else c) acc
      = acc ++ (cs.filter (fun container => unpinned container.Image)).map
          (fun container => (⟨container.Name, n, container.Image, pod.Name⟩ : identifiedWorkload)) := by
  induction cs with
  | nil => simp
  | cons c cs ihc =>
    intro acc
    rw [List.foldl_cons, ihc]
    by_cases hu : unpinned c.Image = true
    · simp [hu]
    · simp [hu]

theorem writes_loop (n : String) (pods : List Pod) :
    ∀ acc : List identifiedWorkload,
      pods.foldl (fun c pod =>
        pod.Containers.foldl (fun c container =>
          if unpinned container.Image then
            c ++ [(⟨container.Name, n, container.Image, pod.Name⟩ : identifiedWorkload)]
          else c) c) acc = acc ++ scanRecords n pods := by
  induction pods with
  | nil => simp [scanRecords]
  | cons pod pods ih =>
    intro acc
    rw [List.foldl_cons, ih, writes_inner]
    simp [scanRecords, List.flatMap_cons]

theorem writes_eq_scanRecords (n : String) (pods : List Pod) :
    getPodsPerNamespace.writes n pods = scanRecords n pods := by
  have h := writes_loop n pods []
  simpa [getPodsPerNamespace.writes] using h

theorem mem_scanRecords {n : String} {pods : List Pod} {r : identifiedWorkload} :
    r ∈ scanRecords n pods ↔
      ∃ pod ∈ pods, ∃ c ∈ pod.Containers, unpinned c.Image = true ∧
        r = ⟨c.Name, n, c.Image, pod.Name⟩ := by
  simp only [scanRecords, List.mem_flatMap, List.mem_map, List.mem_filter]
  constructor
  · rintro ⟨pod, hp, c, ⟨hc, hu⟩, rfl⟩
    exact ⟨pod, hp, c, hc, hu, rfl⟩
  · rintro ⟨pod, hp, c, hc, hu, rfl⟩
    exact ⟨pod, hp, c, ⟨hc, hu⟩, rfl⟩

theorem getPodsPerNamespace_ok {n : String} {cs : Clientset}
    (h : cs.cluster.listPodsErr n = none) :
    getPodsPerNamespace n cs =
      (Go.ret (getPodsPerNamespace.writes n (cs.cluster.podsOf n), none),
        { cs with calls := cs.calls ++ [ApiCall.listPods n] }) := by
  simp [getPodsPerNamespace, Clientset.listPods, h]

theorem getPodsPerNamespace_err {n : String} {cs : Clientset} {e : GoError}
    (h : cs.cluster.listPodsErr n = some e) :
    getPodsPerNamespace n cs =
      (Go.panic e, { cs with calls := cs.calls ++ [ApiCall.listPods n] }) := by
  simp [getPodsPerNamespace, Clientset.listPods, h, handleError]

/-- C2: on a successful pod listing of namespace n, getPodsPerNamespace returns
nil after writing to the channel exactly, in pod order and then container order,
one record per container whose image satisfies the unpinned-image predicate,
with namespace n, the pod's name, the container's name and its raw image; so a
record is written for a container exactly when its image satisfies the predicate,
and every record written satisfies it. -/
theorem C2_getPodsPerNamespace_writes (n : String) (pods : List Pod) :
    getPodsPerNamespace.writes n pods =
      pods.flatMap (fun pod =>
        (pod.Containers.filter (fun container => unpinned container.Image)).map
          (fun container => ⟨container.Name, n, container.Image, pod.Name⟩)) ∧
    (∀ cs : Clientset, cs.cluster.listPodsErr n = none → cs.cluster.podsOf n = pods →
      (getPodsPerNamespace n cs).1 = Go.ret (getPodsPerNamespace.writes n pods, none)) ∧
    (∀ r ∈ getPodsPerNamespace.writes n pods, unpinned r.image = true ∧ r.namespace_ = n) ∧
    (∀ pod ∈ pods, ∀ c ∈ pod.Containers,
      ((⟨c.Name, n, c.Image, pod.Name⟩ : identifiedWorkload) ∈ getPodsPerNamespace.writes n pods
        ↔ unpinned c.Image = true)) := by
  refine ⟨writes_eq_scanRecords n pods, ?_, ?_, ?_⟩
  · intro cs hok hp
    rw [getPodsPerNamespace_ok hok, hp]
  · intro r hr
    rw [writes_eq_scanRecords, mem_scanRecords] at hr
    obtain ⟨pod, _, c, _, hu, rfl⟩ := hr
    exact ⟨hu, rfl⟩
  · intro pod hp c hc
    rw [writes_eq_scanRecords, mem_scanRecords]
    constructor
    · rintro ⟨pod', _, c', _, hu, heq⟩
      have : c.Image = c'.Image := by
        injection heq
      rw [this]; exact hu
    · intro hu
      exact ⟨pod, hp, c, hc, hu, rfl⟩

/-! ## Lists: replacing one element -/

theorem flatMap_split {α β : Type} (f : α → List β) (l : List α) (i : Nat) (a : α)
    (h : l[i]? = some a) :
    l.flatMap f = (l.take i).flatMap f ++ (f a ++ (l.drop (i + 1)).flatMap f) := by
  obtain ⟨hi, rfl⟩ := List.getElem?_eq_some.mp h
  have h1 : l.flatMap f = (l.take i ++ l.drop i).flatMap f := by
    rw [List.take_append_drop]
  rw [h1, List.drop_eq_getElem_cons hi, List.flatMap_append, List.flatMap_cons]

theorem flatMap_set_split {α β : Type} (f : α → List β) (l : List α) (i : Nat) (a b : α)
    (h : l[i]? = some a) :
    (l.set i b).flatMap f = (l.take i).flatMap f ++ (f b ++ (l.drop (i + 1)).flatMap f) := by
  obtain ⟨hi, rfl⟩ := List.getElem?_eq_some.mp h
  rw [List.set_eq_take_append_cons_drop, if_pos hi, List.flatMap_append, List.flatMap_cons]

/-! ## The moves of the goroutines -/

theorem step_panicked {cap : Nat} {st : ScanState} {m : String} (i : Nat)
    (h : st.panicked = some m) : step cap st i = st := by
  simp [step, h]

theorem step_absent {cap : Nat} {st : ScanState} {i : Nat}
    (hg : st.goroutines[i]? = none) : step cap st i = st := by
  cases hp : st.panicked with
  | some m => exact step_panicked i hp
  | none => simp [step, hp, List.get?_eq_getElem?, hg]

theorem step_spawned_ok {cap : Nat} {st : ScanState} {i : Nat} {n : String}
    (hp : st.panicked = none) (hg : st.goroutines[i]? = some (Goroutine.spawned n))
    (hok : st.clientset.cluster.listPodsErr n = none) :
    step cap st i =
      { st with
        clientset := { st.clientset with calls := st.clientset.calls ++ [ApiCall.listPods n] }
        goroutines := st.goroutines.set i
          (Goroutine.running (getPodsPerNamespace.writes n (st.clientset.cluster.podsOf n))) } := by
  simp [step, hp, List.get?_eq_getElem?, hg, getPodsPerNamespace_ok hok]

theorem step_spawned_err {cap : Nat} {st : ScanState} {i : Nat} {n : String} {e : GoError}
    (hp : st.panicked = none) (hg : st.goroutines[i]? = some (Goroutine.spawned n))
    (herr : st.clientset.cluster.listPodsErr n = some e) :
    step cap st i =
      { st with
        clientset := { st.clientset with calls := st.clientset.calls ++ [ApiCall.listPods n] }
        panicked := some e } := by
  simp [step, hp, List.get?_eq_getElem?, hg, getPodsPerNamespace_err herr]

theorem step_finished {cap : Nat} {st : ScanState} {i : Nat}
    (hg : st.goroutines[i]? = some (Goroutine.running [])) : step cap st i = st := by
  cases hp : st.panicked with
  | some m => exact step_panicked i hp
  | none => simp [step, hp, List.get?_eq_getElem?, hg]

theorem step_write {cap : Nat} {st : ScanState} {i : Nat} {cont : identifiedWorkload}
    {rest : List identifiedWorkload}
    (hp : st.panicked = none) (hg : st.goroutines[i]? = some (Goroutine.running (cont :: rest)))
    (hroom : st.messages.length < cap) :
    step cap st i =
      { st with
        messages := st.messages ++ [cont]
        goroutines := st.goroutines.set i (Goroutine.running rest) } := by
  simp [step, hp, List.get?_eq_getElem?, hg, hroom]

theorem step_full {cap : Nat} {st : ScanState} {i : Nat} {cont : identifiedWorkload}
    {rest : List identifiedWorkload}
    (hg : st.goroutines[i]? = some (Goroutine.running (cont :: rest)))
    (hfull : ¬ st.messages.length < cap) : step cap st i = st := by
  cases hp : st.panicked with
  | some m => exact step_panicked i hp
  | none => simp [step, hp, List.get?_eq_getElem?, hg, hfull]

/-- The four ways a move can go: nothing happens, a spawned worker's listing
succeeds, a spawned worker's listing fails, a running worker writes. -/
theorem step_cases (cap : Nat) (st : ScanState) (i : Nat) :
    step cap st i = st ∨
    (∃ n, st.panicked = none ∧ st.goroutines[i]? = some (Goroutine.spawned n) ∧
      st.clientset.cluster.listPodsErr n = none ∧
      step cap st i =
        { st with
          clientset := { st.clientset with calls := st.clientset.calls ++ [ApiCall.listPods n] }
          goroutines := st.goroutines.set i
            (Goroutine.running (getPodsPerNamespace.writes n (st.clientset.cluster.podsOf n))) }) ∨
    (∃ n e, st.panicked = none ∧ st.goroutines[i]? = some (Goroutine.spawned n) ∧
      st.clientset.cluster.listPodsErr n = some e ∧
      step cap st i =
        { st with
          clientset := { st.clientset with calls := st.clientset.calls ++ [ApiCall.listPods n] }
          panicked := some e }) ∨
    (∃ cont rest, st.panicked = none ∧
      st.goroutines[i]? = some (Goroutine.running (cont :: rest)) ∧
      st.messages.length < cap ∧
      step cap st i =
        { st with
          messages := st.messages ++ [cont]
          goroutines := st.goroutines.set i (Goroutine.running rest) }) := by
  rcases Option.eq_none_or_eq_some st.panicked with hp | ⟨m, hp⟩
  swap
  · exact Or.inl (step_panicked i hp)
  · cases hg : st.goroutines[i]? with
    | none => exact Or.inl (step_absent hg)
    | some g =>
      cases g with
      | spawned n =>
        cases hl : st.clientset.cluster.listPodsErr n with
        | none => exact Or.inr (Or.inl ⟨n, hp, rfl, hl, step_spawned_ok hp hg hl⟩)
        | some e => exact Or.inr (Or.inr (Or.inl ⟨n, e, hp, rfl, hl, step_spawned_err hp hg hl⟩))
      | running rest =>
        cases rest with
        | nil => exact Or.inl (step_finished hg)
        | cons cont rest =>
          by_cases hroom : st.messages.length < cap
          · exact Or.inr (Or.inr (Or.inr ⟨cont, rest, hp, rfl, hroom, step_write hp hg hroom⟩))
          · exact Or.inl (step_full hg hroom)

theorem step_goroutines_length (cap : Nat) (st : ScanState) (i : Nat) :
    (step cap st i).goroutines.length = st.goroutines.length := by
  rcases step_cases cap st i with h | ⟨n, _, _, _, h⟩ | ⟨n, e, _, _, _, h⟩ | ⟨c, r, _, _, _, h⟩ <;>
    rw [h] <;> simp

theorem step_goroutines_ne (cap : Nat) (st : ScanState) {i j : Nat} (hij : i ≠ j) :
    (step cap st i).goroutines[j]? = st.goroutines[j]? := by
  rcases step_cases cap st i with h | ⟨n, _, _, _, h⟩ | ⟨n, e, _, _, _, h⟩ | ⟨c, r, _, _, _, h⟩ <;>
    rw [h] <;> simp [List.getElem?_set_ne hij]

theorem step_cluster (cap : Nat) (st : ScanState) (i : Nat) :
    (step cap st i).clientset.cluster = st.clientset.cluster := by
  rcases step_cases cap st i with h | ⟨n, _, _, _, h⟩ | ⟨n, e, _, _, _, h⟩ | ⟨c, r, _, _, _, h⟩ <;>
    rw [h]

theorem step_stays_finished (cap : Nat) (st : ScanState) (i : Nat) {j : Nat}
    (hj : st.goroutines[j]? = some (Goroutine.running [])) :
    (step cap st i).goroutines[j]? = some (Goroutine.running []) := by
  by_cases hij : i = j
  · subst hij
    rw [step_finished hj]; exact hj
  · rw [step_goroutines_ne cap st hij]; exact hj

theorem step_stays_panicked (cap : Nat) (st : ScanState) (i : Nat)
    (h : st.panicked.isSome = true) : (step cap st i).panicked.isSome = true := by
  obtain ⟨m, hm⟩ := Option.isSome_iff_exists.mp h
  rw [step_panicked i hm]; exact h

/-- A move keeps the invariant, as long as the listing of every target succeeds. -/
theorem step_inv {cl : Cluster} {targets : List String} {cap : Nat} {st : ScanState}
    (hok : ∀ n ∈ targets, cl.listPodsErr n = none) (h : ScanInv cl targets st) (i : Nat) :
    ScanInv cl targets (step cap st i) := by
  rcases step_cases cap st i with e | ⟨n, _, hg, _, e⟩ | ⟨n, err, _, hg, herr, _⟩ |
      ⟨c, rest, _, hg, _, e⟩
  · rw [e]; exact h
  · rw [e]
    refine ⟨h.noPanic, h.sameCluster, ?_, ?_, ?_⟩
    · simpa using h.len
    · intro j m hj
      by_cases hij : i = j
      · subst hij
        have hi : i < st.goroutines.length := (List.getElem?_eq_some.mp hg).1
        simp only [List.getElem?_set_self hi] at hj
        cases hj
      · simp only [List.getElem?_set_ne hij] at hj
        exact h.spawnedAt j m hj
    · have hsame : (st.goroutines.set i (Goroutine.running
          (getPodsPerNamespace.writes n (st.clientset.cluster.podsOf n)))).flatMap
            (Goroutine.pending cl) = st.goroutines.flatMap (Goroutine.pending cl) := by
        rw [flatMap_set_split _ _ _ _ _ hg, flatMap_split _ _ _ _ hg]
        simp [Goroutine.pending, h.sameCluster]
      simp only [hsame]
      exact h.perm
  · exfalso
    have hn : n ∈ targets := List.mem_iff_getElem?.mpr ⟨i, h.spawnedAt i n hg⟩
    rw [h.sameCluster, hok n hn] at herr
    cases herr
  · rw [e]
    refine ⟨h.noPanic, h.sameCluster, ?_, ?_, ?_⟩
    · simpa using h.len
    · intro j m hj
      by_cases hij : i = j
      · subst hij
        have hi : i < st.goroutines.length := (List.getElem?_eq_some.mp hg).1
        simp only [List.getElem?_set_self hi] at hj
        cases hj
      · simp only [List.getElem?_set_ne hij] at hj
        exact h.spawnedAt j m hj
    · have hp := h.perm
      rw [flatMap_split _ _ _ _ hg] at hp
      simp only [flatMap_set_split _ _ _ _ _ hg, Goroutine.pending] at hp ⊢
      refine List.Perm.trans ?_ hp
      rw [List.append_assoc]
      refine List.Perm.append_left _ ?_
      simpa using List.perm_middle.symm

theorem foldl_step_inv {cl : Cluster} {targets : List String} (cap : Nat)
    (hok : ∀ n ∈ targets, cl.listPodsErr n = none) (sched : List Nat) :
    ∀ st : ScanState, ScanInv cl targets st →
      ScanInv cl targets (sched.foldl (step cap) st) := by
  induction sched with
  | nil => intro st h; exact h
  | cons i sched ih =>
    intro st h
    exact ih _ (step_inv hok h i)

/-! ## Progress: with room in the channel every worker finishes -/

theorem pending_length_le {cl : Cluster} {targets : List String} {st : ScanState}
    (h : ScanInv cl targets st) {i : Nat} {g : Goroutine} (hg : st.goroutines[i]? = some g) :
    st.messages.length + (g.pending cl).length ≤ (allWrites cl targets).length := by
  have hl := h.perm.length_eq
  rw [flatMap_split _ _ _ _ hg] at hl
  simp only [List.length_append] at hl
  omega

theorem remaining_eq_zero {cl : Cluster} {g : Goroutine} (h : g.remaining cl = 0) :
    g = Goroutine.running [] := by
  cases g with
  | spawned n => simp [Goroutine.remaining] at h
  | running rest =>
    cases rest with
    | nil => rfl
    | cons c rest => simp [Goroutine.remaining] at h

theorem remaining_le (cl : Cluster) (g : Goroutine) :
    g.remaining cl ≤ (g.pending cl).length + 1 := by
  cases g <;> simp [Goroutine.remaining, Goroutine.pending]

theorem step_progress {cl : Cluster} {targets : List String} {cap : Nat} {st : ScanState}
    (hok : ∀ n ∈ targets, cl.listPodsErr n = none)
    (hcap : (allWrites cl targets).length ≤ cap)
    (h : ScanInv cl targets st) {i : Nat} {g : Goroutine}
    (hg : st.goroutines[i]? = some g) (hpos : 0 < g.remaining cl) :
    ∃ g', (step cap st i).goroutines[i]? = some g' ∧ g'.remaining cl + 1 = g.remaining cl := by
  have hi : i < st.goroutines.length := (List.getElem?_eq_some.mp hg).1
  cases g with
  | spawned n =>
    have hn : n ∈ targets := List.mem_iff_getElem?.mpr ⟨i, h.spawnedAt i n hg⟩
    have hl : st.clientset.cluster.listPodsErr n = none := by
      rw [h.sameCluster]; exact hok n hn
    refine ⟨Goroutine.running (getPodsPerNamespace.writes n (cl.podsOf n)), ?_, ?_⟩
    · rw [step_spawned_ok h.noPanic hg hl]
      simp only [List.getElem?_set_self hi, h.sameCluster]
    · simp [Goroutine.remaining]
  | running rest =>
    cases rest with
    | nil => simp [Goroutine.remaining] at hpos
    | cons c rest =>
      have hroom : st.messages.length < cap := by
        have := pending_length_le h hg
        simp only [Goroutine.pending, List.length_cons] at this
        omega
      refine ⟨Goroutine.running rest, ?_, ?_⟩
      · rw [step_write h.noPanic hg hroom]
        simp only [List.getElem?_set_self hi]
      · simp [Goroutine.remaining]

/-- Given `m` moves in a row, a worker that needs at most `m` moves finishes. -/
theorem run_block {cl : Cluster} {targets : List String} {cap : Nat}
    (hok : ∀ n ∈ targets, cl.listPodsErr n = none)
    (hcap : (allWrites cl targets).length ≤ cap) (i : Nat) :
    ∀ (m : Nat) (st : ScanState), ScanInv cl targets st →
      ∀ g, st.goroutines[i]? = some g → g.remaining cl ≤ m →
        ((List.replicate m i).foldl (step cap) st).goroutines[i]? =
          some (Goroutine.running []) := by
  intro m
  induction m with
  | zero =>
    intro st _ g hg hm
    have := remaining_eq_zero (Nat.le_zero.mp hm)
    subst this
    simpa using hg
  | succ m ih =>
    intro st h g hg hm
    rw [List.replicate_succ, List.foldl_cons]
    by_cases hz : g.remaining cl = 0
    · have := remaining_eq_zero hz
      subst this
      rw [step_finished hg]
      exact ih st h _ hg (by simp [Goroutine.remaining])
    · obtain ⟨g', hg', hr⟩ := step_progress hok hcap h hg (Nat.pos_of_ne_zero hz)
      exact ih _ (step_inv hok h i) g' hg' (by omega)

theorem foldl_stays_finished (cap : Nat) (sched : List Nat) {j : Nat} :
    ∀ st : ScanState, st.goroutines[j]? = some (Goroutine.running []) →
      (sched.foldl (step cap) st).goroutines[j]? = some (Goroutine.running []) := by
  induction sched with
  | nil => intro st h; exact h
  | cons i sched ih =>
    intro st h
    exact ih _ (step_stays_finished cap st i h)

/-- After the completion moves of the first `k` workers, these have finished. -/
theorem completion_finishes {cl : Cluster} {targets : List String} {cap : Nat}
    (hok : ∀ n ∈ targets, cl.listPodsErr n = none)
    (hcap : (allWrites cl targets).length ≤ cap) :
    ∀ (k : Nat), k ≤ targets.length → ∀ st : ScanState, ScanInv cl targets st →
      ∀ j < k, (((List.range k).flatMap (fun i => List.replicate (cap + 1) i)).foldl
        (step cap) st).goroutines[j]? = some (Goroutine.running []) := by
  intro k
  induction k with
  | zero => intro _ st _ j hj; omega
  | succ k ih =>
    intro hk st h j hj
    rw [List.range_succ, List.flatMap_append, List.foldl_append]
    simp only [List.flatMap_cons, List.flatMap_nil, List.append_nil]
    have h1 : ScanInv cl targets
        (((List.range k).flatMap (fun i => List.replicate (cap + 1) i)).foldl (step cap) st) :=
      foldl_step_inv cap hok _ st h
    by_cases hjk : j = k
    · subst hjk
      have hlen : j < (((List.range j).flatMap (fun i => List.replicate (cap + 1) i)).foldl
          (step cap) st).goroutines.length := by
        rw [h1.len]; omega
      have hg : (((List.range j).flatMap (fun i => List.replicate (cap + 1) i)).foldl
          (step cap) st).goroutines[j]? = some _ := List.getElem?_eq_getElem hlen
      refine run_block hok hcap j (cap + 1) _ h1 _ hg ?_
      have h2 := pending_length_le h1 hg
      have h3 := remaining_le cl ((((List.range j).flatMap
        (fun i => List.replicate (cap + 1) i)).foldl (step cap) st).goroutines[j])
      omega
    · exact foldl_stays_finished cap _ _ (ih (by omega) st h j (by omega))

theorem initial_inv (cl : Cluster) (targets : List String) (calls : List ApiCall) :
    ScanInv cl targets
      { clientset := { cluster := cl, calls := calls }
        goroutines := targets.map Goroutine.spawned
        messages := []
        panicked := none } := by
  refine ⟨rfl, rfl, by simp, ?_, ?_⟩
  · intro i n hi
    simp only [List.getElem?_map] at hi
    cases ht : targets[i]? with
    | none => rw [ht] at hi; cases hi
    | some m =>
      rw [ht] at hi
      simp only [Option.map_some', Option.some.injEq, Goroutine.spawned.injEq] at hi
      rw [hi]
  · have : (targets.map Goroutine.spawned).flatMap (Goroutine.pending cl) = allWrites cl targets := by
      induction targets with
      | nil => rfl
      | cons n ts ih =>
        simp only [List.map_cons, List.flatMap_cons, allWrites] at ih ⊢
        rw [ih]; rfl
    simp only [List.nil_append, this]
    exact List.Perm.refl _

/-- When the listing of every target succeeds and the channel has room for all
the writes, the concurrent phase ends, under every schedule, with no panic, all
workers finished and the channel holding a permutation of all the writes. -/
theorem scan_completes {cl : Cluster} {targets : List String} {cap : Nat}
    (hok : ∀ n ∈ targets, cl.listPodsErr n = none)
    (hcap : (allWrites cl targets).length ≤ cap) (calls : List ApiCall) (sched : List Nat) :
    (scan { cluster := cl, calls := calls } targets cap sched).panicked = none ∧
    (scan { cluster := cl, calls := calls } targets cap sched).goroutines.all
      Goroutine.finished = true ∧
    (scan { cluster := cl, calls := calls } targets cap sched).messages.Perm
      (allWrites cl targets) := by
  have h0 := initial_inv cl targets calls
  have h1 := foldl_step_inv cap hok sched _ h0
  have hfin := completion_finishes hok hcap targets.length (le_refl _) _ h1
  have h2 := foldl_step_inv cap hok (completion targets.length cap) _ h1
  have hscan : scan { cluster := cl, calls := calls } targets cap sched =
      (completion targets.length cap).foldl (step cap) (sched.foldl (step cap)
        { clientset := { cluster := cl, calls := calls }
          goroutines := targets.map Goroutine.spawned
          messages := []
          panicked := none }) := by
    simp [scan, List.foldl_append]
  rw [hscan]
  have hall : ∀ g ∈ ((completion targets.length cap).foldl (step cap) (sched.foldl (step cap)
        { clientset := { cluster := cl, calls := calls }
          goroutines := targets.map Goroutine.spawned
          messages := []
          panicked := none })).goroutines, g = Goroutine.running [] := by
    intro g hg
    obtain ⟨j, hj⟩ := List.mem_iff_getElem?.mp hg
    have hjl : j < targets.length := by
      rw [← h2.len]; exact (List.getElem?_eq_some.mp hj).1
    have := hfin j hjl
    unfold completion at hj
    rw [this] at hj
    exact (Option.some.inj hj).symm
  refine ⟨h2.noPanic, ?_, ?_⟩
  · rw [List.all_eq_true]
    intro g hg
    rw [hall g hg]; rfl
  · have hp := h2.perm
    have hnil : ((completion targets.length cap).foldl (step cap) (sched.foldl (step cap)
        { clientset := { cluster := cl, calls := calls }
          goroutines := targets.map Goroutine.spawned
          messages := []
          panicked := none })).goroutines.flatMap (Goroutine.pending cl) = [] := by
      rw [List.flatMap_eq_nil_iff]
      intro g hg
      rw [hall g hg]; rfl
    rw [hnil, List.append_nil] at hp
    exact hp

/-! ## The capacity of the channel -/

theorem foldl_count (pods : List Pod) :
    ∀ k : Nat, pods.foldl (fun numberOfContainers pod =>
        numberOfContainers + pod.Containers.length) k
      = k + (pods.map (fun pod => pod.Containers.length)).sum := by
  induction pods with
  | nil => intro k; simp
  | cons p ps ih =>
    intro k
    rw [List.foldl_cons, ih]
    simp only [List.map_cons, List.sum_cons]
    omega

theorem getTotalNumberOfContainers_ok (cs : Clientset)
    (h : cs.cluster.listPodsErr "" = none) :
    getTotalNumberOfContainers cs =
      (Except.ok cs.cluster.containerCount,
        { cs with calls := cs.calls ++ [ApiCall.listPods ""] }) := by
  simp [getTotalNumberOfContainers, Clientset.listPods, h, foldl_count, Cluster.podsOf,
    Cluster.containerCount]

theorem getTotalNumberOfContainers_err (cs : Clientset) {e : GoError}
    (h : cs.cluster.listPodsErr "" = some e) :
    getTotalNumberOfContainers cs =
      (Except.error e, { cs with calls := cs.calls ++ [ApiCall.listPods ""] }) := by
  simp [getTotalNumberOfContainers, Clientset.listPods, h]

theorem length_scanRecords_le (n : String) (pods : List Pod) :
    (scanRecords n pods).length ≤ (pods.map (fun pod => pod.Containers.length)).sum := by
  induction pods with
  | nil => simp [scanRecords]
  | cons p ps ih =>
    simp only [scanRecords, List.flatMap_cons, List.length_append, List.length_map,
      List.map_cons, List.sum_cons] at ih ⊢
    have := List.length_filter_le (fun container : Container => unpinned container.Image)
      p.Containers
    omega

/-- A pod is counted for at most one of several distinct namespaces. -/
theorem sum_ite_le (g : Nat) (ns : String) (targets : List String) (hnd : targets.Nodup) :
    (targets.map (fun n => if ns = n then g else 0)).sum ≤ g := by
  induction targets with
  | nil => simp
  | cons t ts ih =>
    have hnd' := List.nodup_cons.mp hnd
    simp only [List.map_cons, List.sum_cons]
    by_cases h : ns = t
    · subst h
      have hz : (ts.map (fun n => if ns = n then g else 0)).sum = 0 := by
        apply List.sum_eq_zero
        intro x hx
        obtain ⟨n, hn, rfl⟩ := List.mem_map.mp hx
        have : ns ≠ n := fun e => hnd'.1 (e ▸ hn)
        simp [this]
      simp [hz]
    · simp only [h, if_false, zero_add]
      exact ih hnd'.2

theorem sum_filter_le (g : Pod → Nat) (targets : List String) (hnd : targets.Nodup)
    (pods : List Pod) :
    (targets.map (fun n => ((pods.filter (fun p => p.Namespace = n)).map g).sum)).sum
      ≤ (pods.map g).sum := by
  induction pods with
  | nil => simp
  | cons p ps ih =>
    have hsplit : ∀ n : String,
        (((p :: ps).filter (fun q => q.Namespace = n)).map g).sum =
          (if p.Namespace = n then g p else 0) +
            ((ps.filter (fun q => q.Namespace = n)).map g).sum := by
      intro n
      by_cases h : p.Namespace = n
      · simp [List.filter_cons, h]
      · simp [List.filter_cons, h]
    simp only [hsplit, List.sum_map_add, List.map_cons, List.sum_cons]
    have := sum_ite_le (g p) p.Namespace targets hnd
    omega

theorem podsOf_of_ne {cl : Cluster} {n : String} (h : n ≠ "") :
    cl.podsOf n = cl.pods.filter (fun p => p.Namespace = n) := by
  simp [Cluster.podsOf, h]

/-- The workers of distinct namespaces write at most as many records as the
cluster has containers. -/
theorem allWrites_length_le (cl : Cluster) (targets : List String) (hnd : targets.Nodup)
    (h0 : "" ∉ targets) : (allWrites cl targets).length ≤ cl.containerCount := by
  have h1 : (allWrites cl targets).length ≤
      (targets.map (fun n => ((cl.pods.filter (fun p => p.Namespace = n)).map
        (fun pod => pod.Containers.length)).sum)).sum := by
    unfold allWrites
    rw [List.length_flatMap]
    apply List.sum_le_sum
    intro n hn
    have hne : n ≠ "" := fun e => h0 (e ▸ hn)
    simp only [Function.comp, writes_eq_scanRecords, podsOf_of_ne hne]
    exact length_scanRecords_le n _
  exact le_trans h1 (sum_filter_le _ targets hnd cl.pods)

theorem drain_eq (l : List identifiedWorkload) :
    ∀ acc : List identifiedWorkload,
      l.foldl (fun listOfWorkloads element => listOfWorkloads ++ [element]) acc = acc ++ l := by
  induction l with
  | nil => intro acc; simp
  | cons x xs ih => intro acc; rw [List.foldl_cons, ih]; simp

/-- With successful listings and room in the channel, the run renders the sorted
contents of the channel, which are a permutation of all the writes. -/
theorem dispatch_report (S : SortImpl) {cl : Cluster} {targets : List String} {cap : Nat}
    (hok : ∀ n ∈ targets, cl.listPodsErr n = none)
    (hcap : (allWrites cl targets).length ≤ cap) (calls : List ApiCall) (sched : List Nat) :
    ∃ msgs : List identifiedWorkload, msgs.Perm (allWrites cl targets) ∧
      (dispatch S { cluster := cl, calls := calls } targets cap sched).outcome =
        Outcome.report (S.sort msgs) := by
  obtain ⟨hp, hall, hperm⟩ := scan_completes hok hcap calls sched
  refine ⟨_, hperm, ?_⟩
  simp only [dispatch, hp, hall, if_true, drain_eq, List.nil_append]

/-! ## `rootCmd.Run` stage by stage -/

theorem names_eq (items : List String) :
    ∀ acc : List String,
      items.foldl (fun listOfNamespaces name => listOfNamespaces ++ [name]) acc = acc ++ items := by
  induction items with
  | nil => intro acc; simp
  | cons x xs ih => intro acc; rw [List.foldl_cons, ih]; simp

theorem targetNamespaces_flag {flag : String} (h : flag ≠ "") (cs : Clientset) :
    targetNamespaces flag cs = (Go.ret [flag], cs) := by
  simp [targetNamespaces, h]

theorem targetNamespaces_all_ok (cs : Clientset) (h : cs.cluster.listNamespacesErr = none) :
    targetNamespaces "" cs =
      (Go.ret cs.cluster.namespaces,
        { cs with calls := cs.calls ++ [ApiCall.listNamespaces] }) := by
  simp [targetNamespaces, getNamespaces, Clientset.listNamespaces, h, names_eq]

theorem targetNamespaces_all_err (cs : Clientset) {e : GoError}
    (h : cs.cluster.listNamespacesErr = some e) :
    targetNamespaces "" cs =
      (Go.panic e, { cs with calls := cs.calls ++ [ApiCall.listNamespaces] }) := by
  simp [targetNamespaces, getNamespaces, Clientset.listNamespaces, h, handleError]

theorem Run_estimate_err (S : SortImpl) {cl : Cluster} {e : GoError}
    (h : cl.listPodsErr "" = some e) (flag : String) (sched : List Nat) :
    rootCmd.Run S cl flag sched =
      { outcome := Outcome.fatal e, calls := [ApiCall.listPods ""] } := by
  have := getTotalNumberOfContainers_err { cluster := cl, calls := [] } h
  simp [rootCmd.Run, this]

theorem Run_flag (S : SortImpl) {cl : Cluster} (h : cl.listPodsErr "" = none)
    {flag : String} (hf : flag ≠ "") (sched : List Nat) :
    rootCmd.Run S cl flag sched =
      dispatch S { cluster := cl, calls := [ApiCall.listPods ""] } [flag]
        (channelCapacity cl.containerCount) sched := by
  have := getTotalNumberOfContainers_ok { cluster := cl, calls := [] } h
  simp [rootCmd.Run, this, targetNamespaces_flag hf]

theorem Run_all (S : SortImpl) {cl : Cluster} (h : cl.listPodsErr "" = none)
    (hn : cl.listNamespacesErr = none) (sched : List Nat) :
    rootCmd.Run S cl "" sched =
      dispatch S { cluster := cl, calls := [ApiCall.listPods "", ApiCall.listNamespaces] }
        cl.namespaces (channelCapacity cl.containerCount) sched := by
  have := getTotalNumberOfContainers_ok { cluster := cl, calls := [] } h
  have h2 := targetNamespaces_all_ok
    { cluster := cl, calls := [ApiCall.listPods ""] } hn
  simp [rootCmd.Run, this, h2]

theorem Run_all_err (S : SortImpl) {cl : Cluster} (h : cl.listPodsErr "" = none)
    {e : GoError} (hn : cl.listNamespacesErr = some e) (sched : List Nat) :
    rootCmd.Run S cl "" sched =
      { outcome := Outcome.fatal e,
        calls := [ApiCall.listPods "", ApiCall.listNamespaces] } := by
  have := getTotalNumberOfContainers_ok { cluster := cl, calls := [] } h
  have h2 := targetNamespaces_all_err
    { cluster := cl, calls := [ApiCall.listPods ""] } hn
  simp [rootCmd.Run, this, h2]

theorem le_channelCapacity (k : Nat) : k ≤ channelCapacity k := by
  unfold channelCapacity; omega

/-- C6: when the all-namespaces pod listing succeeds on a cluster with K
containers in total, getTotalNumberOfContainers returns K, the channel is created
with capacity K + K/10, which is at least K, and for distinct target namespaces
whose listings succeed on that cluster the workers write at most capacity many
records in total, so that under every schedule no write blocks and the run ends
with a report. -/
theorem C6_capacity (cl : Cluster) (h : cl.listPodsErr "" = none) :
    (∀ calls : List ApiCall,
      (getTotalNumberOfContainers { cluster := cl, calls := calls }).1 =
        Except.ok (cl.pods.map (fun pod => pod.Containers.length)).sum) ∧
    (∀ (S : SortImpl) (flag : String) (sched : List Nat), flag ≠ "" →
      rootCmd.Run S cl flag sched =
        dispatch S { cluster := cl, calls := [ApiCall.listPods ""] } [flag]
          (cl.containerCount + cl.containerCount / 10) sched) ∧
    (∀ (S : SortImpl) (sched : List Nat), cl.listNamespacesErr = none →
      rootCmd.Run S cl "" sched =
        dispatch S { cluster := cl, calls := [ApiCall.listPods "", ApiCall.listNamespaces] }
          cl.namespaces (cl.containerCount + cl.containerCount / 10) sched) ∧
    cl.containerCount ≤ cl.containerCount + cl.containerCount / 10 ∧
    (∀ targets : List String, targets.Nodup → "" ∉ targets →
      (∀ n ∈ targets, cl.listPodsErr n = none) →
      (targets.map (fun n =>
          (getPodsPerNamespace.writes n (cl.podsOf n)).length)).sum
        ≤ cl.containerCount + cl.containerCount / 10 ∧
      ∀ (S : SortImpl) (calls : List ApiCall) (sched : List Nat),
        (scan { cluster := cl, calls := calls } targets
            (cl.containerCount + cl.containerCount / 10) sched).goroutines.all
          Goroutine.finished = true ∧
        ∃ out, (dispatch S { cluster := cl, calls := calls } targets
          (cl.containerCount + cl.containerCount / 10) sched).outcome = Outcome.report out) := by
  refine ⟨?_, ?_, ?_, Nat.le_add_right _ _, ?_⟩
  · intro calls
    rw [getTotalNumberOfContainers_ok _ h]
    rfl
  · intro S flag sched hf
    exact Run_flag S h hf sched
  · intro S sched hn
    exact Run_all S h hn sched
  · intro targets hnd h0 hok
    have hcap : (allWrites cl targets).length ≤ cl.containerCount + cl.containerCount / 10 :=
      le_trans (allWrites_length_le cl targets hnd h0) (Nat.le_add_right _ _)
    refine ⟨?_, ?_⟩
    · have : (targets.map (fun n =>
          (getPodsPerNamespace.writes n (cl.podsOf n)).length)).sum =
          (allWrites cl targets).length := by
        unfold allWrites
        rw [List.length_flatMap]
        rfl
      rw [this]; exact hcap
    · intro S calls sched
      refine ⟨(scan_completes hok hcap calls sched).2.1, ?_⟩
      obtain ⟨msgs, _, ho⟩ := dispatch_report S hok hcap calls sched
      exact ⟨_, ho⟩

/-! ## The report -/

theorem flatMap_congr_mem {α β : Type} {l : List α} {f g : α → List β}
    (h : ∀ a ∈ l, f a = g a) : l.flatMap f = l.flatMap g := by
  induction l with
  | nil => rfl
  | cons x xs ih =>
    rw [List.flatMap_cons, List.flatMap_cons, h x (List.mem_cons_self _ _),
      ih (fun a ha => h a (List.mem_cons_of_mem _ ha))]

theorem allWrites_eq {cl : Cluster} {targets : List String} (h0 : "" ∉ targets) :
    allWrites cl targets =
      targets.flatMap (fun n => scanRecords n (cl.pods.filter (fun p => p.Namespace = n))) := by
  unfold allWrites
  apply flatMap_congr_mem
  intro n hn
  have hne : n ≠ "" := fun e => h0 (e ▸ hn)
  rw [writes_eq_scanRecords, podsOf_of_ne hne]

/-- A slice of two records with different namespaces has one sorted arrangement. -/
theorem sort_pair (S : SortImpl) {a b : identifiedWorkload}
    (hab : a.namespace_.data < b.namespace_.data) {msgs : List identifiedWorkload}
    (h : msgs.Perm [a, b]) : S.sort msgs = [a, b] := by
  have hp : (S.sort msgs).Perm [a, b] := (S.perm msgs).trans h
  have hne : a ≠ b := fun e => by rw [e] at hab; exact lt_irrefl _ hab
  obtain ⟨x, y, hs⟩ := List.length_eq_two.mp hp.length_eq
  have hsorted := S.sorted msgs 0 1 (by omega) (by simp [byNamespace.Len, hs])
  rw [hs] at hp hsorted
  simp only [byNamespace.Less, List.getD_cons_zero, List.getD_cons_succ,
    decide_eq_false_iff_not] at hsorted
  have hx : x ∈ [a, b] := hp.mem_iff.mp (by simp)
  have hy : y ∈ [a, b] := hp.mem_iff.mp (by simp)
  have ha : a ∈ [x, y] := hp.mem_iff.mpr (by simp)
  have hb : b ∈ [x, y] := hp.mem_iff.mpr (by simp)
  simp only [List.mem_cons, List.mem_singleton, List.not_mem_nil, or_false] at hx hy ha hb
  rw [hs]
  rcases hx with rfl | rfl <;> rcases hy with rfl | rfl
  · rcases hb with h1 | h1 <;> exact absurd h1.symm hne
  · rfl
  · exact absurd hab hsorted
  · rcases ha with h1 | h1 <;> exact absurd h1 hne

/-- C4: on every cluster whose listings all succeed (its namespaces having
distinct, non-empty names) and for every value of the namespace flag and every
schedule, the run hands to the reporter the sorted contents of the channel, which
are, as a multiset, exactly the records of the per-namespace scanner for the
target namespaces; in the end-to-end scenario the report is the record of c1
(namespace a) and then the record of c3 (namespace b), c2 being excluded. -/
theorem C4_report_is_scan :
    (∀ (S : SortImpl) (cl : Cluster) (flag : String) (sched : List Nat),
      (∀ n, cl.listPodsErr n = none) → cl.listNamespacesErr = none →
      cl.namespaces.Nodup → "" ∉ cl.namespaces →
      ∃ msgs out : List identifiedWorkload,
        (rootCmd.Run S cl flag sched).outcome = Outcome.report out ∧
        out = S.sort msgs ∧
        msgs.Perm ((if flag ≠ "" then [flag] else cl.namespaces).flatMap
          (fun n => scanRecords n (cl.pods.filter (fun p => p.Namespace = n)))) ∧
        out.Perm ((if flag ≠ "" then [flag] else cl.namespaces).flatMap
          (fun n => scanRecords n (cl.pods.filter (fun p => p.Namespace = n))))) ∧
    (∀ (S : SortImpl) (sched : List Nat),
      (rootCmd.Run S exampleCluster "" sched).outcome =
        Outcome.report [⟨"c1", "a", "redis", "pod"⟩, ⟨"c3", "b", "app:latest", "pod"⟩]) := by
  have main : ∀ (S : SortImpl) (cl : Cluster) (flag : String) (sched : List Nat),
      (∀ n, cl.listPodsErr n = none) → cl.listNamespacesErr = none →
      cl.namespaces.Nodup → "" ∉ cl.namespaces →
      ∃ msgs : List identifiedWorkload,
        (rootCmd.Run S cl flag sched).outcome = Outcome.report (S.sort msgs) ∧
        msgs.Perm ((if flag ≠ "" then [flag] else cl.namespaces).flatMap
          (fun n => scanRecords n (cl.pods.filter (fun p => p.Namespace = n)))) := by
    intro S cl flag sched hpods hns hnd h0
    by_cases hf : flag = ""
    · subst hf
      have hcap : (allWrites cl cl.namespaces).length ≤ channelCapacity cl.containerCount :=
        le_trans (allWrites_length_le cl _ hnd h0) (le_channelCapacity _)
      obtain ⟨msgs, hperm, ho⟩ := dispatch_report S (fun n _ => hpods n) hcap
        [ApiCall.listPods "", ApiCall.listNamespaces] sched
      refine ⟨msgs, ?_, ?_⟩
      · rw [Run_all S (hpods "") hns]; exact ho
      · rw [allWrites_eq h0] at hperm
        simpa using hperm
    · have hnd1 : [flag].Nodup := List.nodup_singleton _
      have h01 : "" ∉ [flag] := by
        simp only [List.mem_singleton]
        exact fun e => hf e.symm
      have hcap : (allWrites cl [flag]).length ≤ channelCapacity cl.containerCount :=
        le_trans (allWrites_length_le cl _ hnd1 h01) (le_channelCapacity _)
      obtain ⟨msgs, hperm, ho⟩ := dispatch_report S (fun n _ => hpods n) hcap
        [ApiCall.listPods ""] sched
      refine ⟨msgs, ?_, ?_⟩
      · rw [Run_flag S (hpods "") hf]; exact ho
      · rw [allWrites_eq h01] at hperm
        simpa [hf] using hperm
  refine ⟨?_, ?_⟩
  · intro S cl flag sched hpods hns hnd h0
    obtain ⟨msgs, ho, hperm⟩ := main S cl flag sched hpods hns hnd h0
    exact ⟨msgs, S.sort msgs, ho, rfl, hperm, (S.perm msgs).trans hperm⟩
  · intro S sched
    obtain ⟨msgs, ho, hperm⟩ := main S exampleCluster "" sched (fun _ => rfl) rfl
      (by decide) (by decide)
    rw [ho]
    have hrec : (if ("" : String) ≠ "" then [""] else exampleCluster.namespaces).flatMap
        (fun n => scanRecords n (exampleCluster.pods.filter (fun p => p.Namespace = n))) =
        [⟨"c1", "a", "redis", "pod"⟩, ⟨"c3", "b", "app:latest", "pod"⟩] := by
      decide
    rw [hrec] at hperm
    rw [sort_pair S (by decide) hperm]

/-- C4 at the end-to-end scenario, with insertion sort and one schedule. -/
theorem C4_report_is_scan_witness :
    (∀ n, exampleCluster.listPodsErr n = none) ∧ exampleCluster.listNamespacesErr = none ∧
    exampleCluster.namespaces.Nodup ∧ "" ∉ exampleCluster.namespaces ∧
    (∃ msgs out : List identifiedWorkload,
        (rootCmd.Run stableSort exampleCluster "" [1, 0, 1]).outcome = Outcome.report out ∧
        out = stableSort.sort msgs ∧
        msgs.Perm ((if ("" : String) ≠ "" then [""] else exampleCluster.namespaces).flatMap
          (fun n => scanRecords n (exampleCluster.pods.filter (fun p => p.Namespace = n)))) ∧
        out.Perm ((if ("" : String) ≠ "" then [""] else exampleCluster.namespaces).flatMap
          (fun n => scanRecords n (exampleCluster.pods.filter (fun p => p.Namespace = n))))) ∧
    (rootCmd.Run stableSort exampleCluster "" [1, 0, 1]).outcome =
        Outcome.report [⟨"c1", "a", "redis", "pod"⟩, ⟨"c3", "b", "app:latest", "pod"⟩] :=
  ⟨fun _ => rfl, rfl, by decide, by decide,
    C4_report_is_scan.1 stableSort exampleCluster "" [1, 0, 1] (fun _ => rfl) rfl
      (by decide) (by decide),
    by decide⟩

/-! ## The sort by namespace -/

theorem sort_pairwise (S : SortImpl) (l : List identifiedWorkload) :
    (S.sort l).Pairwise nsLE := by
  rw [List.pairwise_iff_getElem]
  intro i j hi hj hij
  have h := S.sorted l i j hij hj
  simp only [byNamespace.Less, decide_eq_false_iff_not, not_lt] at h
  rw [List.getD_eq_getElem _ _ hi, List.getD_eq_getElem _ _ hj] at h
  exact h

theorem nsLE_iff (a b : identifiedWorkload) : nsLE a b ↔ a.namespace_ ≤ b.namespace_ := by
  unfold nsLE
  rw [← not_lt, ← not_lt, String.lt_iff_toList_lt]
  rfl

theorem dispatch_report_eq {S : SortImpl} {cs : Clientset} {targets : List String} {cap : Nat}
    {sched : List Nat} {out : List identifiedWorkload}
    (h : (dispatch S cs targets cap sched).outcome = Outcome.report out) :
    out = S.sort (scan cs targets cap sched).messages := by
  unfold dispatch at h
  simp only [drain_eq, List.nil_append] at h
  split at h
  · cases h
  · split at h
    · simp only [Outcome.report.injEq] at h
      exact h.symm
    · cases h

/-- A run either dies before the workers are spawned or is the concurrent phase
on the target namespaces, the channel having the capacity of line 86. -/
theorem Run_cases (S : SortImpl) (cl : Cluster) (flag : String) (sched : List Nat) :
    (∃ msg calls, rootCmd.Run S cl flag sched =
      { outcome := Outcome.fatal msg, calls := calls }) ∨
    (∃ calls targets, rootCmd.Run S cl flag sched =
      dispatch S { cluster := cl, calls := calls } targets
        (channelCapacity cl.containerCount) sched) := by
  cases h : cl.listPodsErr "" with
  | some e => exact Or.inl ⟨e, _, Run_estimate_err S h flag sched⟩
  | none =>
    by_cases hf : flag = ""
    · subst hf
      cases hn : cl.listNamespacesErr with
      | some e => exact Or.inl ⟨e, _, Run_all_err S h hn sched⟩
      | none => exact Or.inr ⟨_, _, Run_all S h hn sched⟩
    · exact Or.inr ⟨_, _, Run_flag S h hf sched⟩

theorem Run_report_eq {S : SortImpl} {cl : Cluster} {flag : String} {sched : List Nat}
    {out : List identifiedWorkload}
    (h : (rootCmd.Run S cl flag sched).outcome = Outcome.report out) :
    ∃ msgs, out = S.sort msgs := by
  rcases Run_cases S cl flag sched with ⟨msg, calls, e⟩ | ⟨calls, targets, e⟩
  · rw [e] at h; cases h
  · rw [e] at h
    exact ⟨_, dispatch_report_eq h⟩

/-- C5: the slice that sort.Sort(byNamespace(...)) produces from any list of
collected records is non-decreasing in the namespace field under string ordering
across its full length, out[i].namespace <= out[j].namespace for all i < j, and
this is the sequence of every report. -/
theorem C5_sorted_by_namespace :
    (∀ (S : SortImpl) (l : List identifiedWorkload) (i j : Nat) (hij : i < j)
        (hj : j < (S.sort l).length),
      ((S.sort l).get ⟨i, lt_trans hij hj⟩).namespace_ ≤
        ((S.sort l).get ⟨j, hj⟩).namespace_) ∧
    (∀ (S : SortImpl) (cl : Cluster) (flag : String) (sched : List Nat)
        (out : List identifiedWorkload),
      (rootCmd.Run S cl flag sched).outcome = Outcome.report out →
      ∀ (i j : Nat) (hij : i < j) (hj : j < out.length),
        (out.get ⟨i, lt_trans hij hj⟩).namespace_ ≤ (out.get ⟨j, hj⟩).namespace_) := by
  have key : ∀ (S : SortImpl) (l : List identifiedWorkload) (i j : Nat) (hij : i < j)
      (hj : j < (S.sort l).length),
      ((S.sort l).get ⟨i, lt_trans hij hj⟩).namespace_ ≤
        ((S.sort l).get ⟨j, hj⟩).namespace_ := by
    intro S l i j hij hj
    have h := List.pairwise_iff_getElem.mp (sort_pairwise S l) i j (lt_trans hij hj) hj hij
    exact (nsLE_iff _ _).mp h
  refine ⟨key, ?_⟩
  intro S cl flag sched out h i j hij hj
  obtain ⟨msgs, rfl⟩ := Run_report_eq h
  exact key S msgs i j hij hj

/-- C5 on the seven records of `drainedSeven`, at the positions 0 and 6. -/
theorem C5_sorted_by_namespace_witness :
    (0 : Nat) < 6 ∧ 6 < (shellThenInsertionSort.sort drainedSeven).length ∧
    ((shellThenInsertionSort.sort drainedSeven).get ⟨0, by decide⟩).namespace_ ≤
      ((shellThenInsertionSort.sort drainedSeven).get ⟨6, by decide⟩).namespace_ :=
  ⟨by decide, by decide,
    C5_sorted_by_namespace.1 shellThenInsertionSort drainedSeven 0 6 (by decide) (by decide)⟩

/-- C10: sort.Sort is not stable on the seven records of `drainedSeven`: the
gap-6 pass followed by insertion sort, which meets the contract of sort.Sort,
moves the record of container c6 of namespace a before the record of c1, so the
records of namespace a do not keep the order they have in the drained list. -/
theorem C10_sort_not_stable :
    shellThenInsertionSort.sort drainedSeven =
      [⟨"c6", "a", "nginx", "web"⟩, ⟨"c1", "a", "nginx", "web"⟩, ⟨"c2", "a", "nginx", "web"⟩,
        ⟨"c3", "a", "nginx", "web"⟩, ⟨"c4", "a", "nginx", "web"⟩, ⟨"c5", "a", "nginx", "web"⟩,
        ⟨"c7", "b", "redis", "db"⟩] ∧
    (shellThenInsertionSort.sort drainedSeven).filter (fun r => r.namespace_ = "a") ≠
      drainedSeven.filter (fun r => r.namespace_ = "a") ∧
    ¬ keepsTies shellThenInsertionSort drainedSeven := by
  refine ⟨by decide, by decide, ?_⟩
  intro h
  have h1 := h "a"
  revert h1
  decide

/-- C10 as amended: sort.Sort(byNamespace(...)) rearranges the drained list into
non-decreasing namespace order, and the namespace string is the only comparison
key: Less compares the namespaces alone, so that two records with one and the
same namespace are not ordered by pod, container name or image. -/
theorem C10_sort_by_namespace_only :
    (∀ (S : SortImpl) (l : List identifiedWorkload),
      (S.sort l).Perm l ∧
      (S.sort l).Pairwise (fun a b => a.namespace_ ≤ b.namespace_)) ∧
    (∀ (n : List identifiedWorkload) (i j : Nat),
      byNamespace.Less n i j = true ↔
        (n.getD i default).namespace_ < (n.getD j default).namespace_) ∧
    (∀ a b : identifiedWorkload, a.namespace_ = b.namespace_ →
      byNamespace.Less [a, b] 0 1 = false ∧ byNamespace.Less [a, b] 1 0 = false) := by
  refine ⟨?_, ?_, ?_⟩
  · intro S l
    refine ⟨S.perm l, ?_⟩
    exact (sort_pairwise S l).imp (fun {a b} h => (nsLE_iff a b).mp h)
  · intro n i j
    simp only [byNamespace.Less, decide_eq_true_eq]
    exact String.lt_iff_toList_lt.symm
  · intro a b hab
    simp [byNamespace.Less, hab]

/-- C10 as amended, at two records of namespace a that differ in every other field. -/
theorem C10_sort_by_namespace_only_witness :
    (⟨"c1", "a", "nginx", "web"⟩ : identifiedWorkload).namespace_ =
      (⟨"c9", "a", "redis", "db"⟩ : identifiedWorkload).namespace_ ∧
    byNamespace.Less [⟨"c1", "a", "nginx", "web"⟩, ⟨"c9", "a", "redis", "db"⟩] 0 1 = false ∧
    byNamespace.Less [⟨"c1", "a", "nginx", "web"⟩, ⟨"c9", "a", "redis", "db"⟩] 1 0 = false :=
  ⟨rfl, C10_sort_by_namespace_only.2.2 ⟨"c1", "a", "nginx", "web"⟩ ⟨"c9", "a", "redis", "db"⟩ rfl⟩

/-! ## The order of the records of one namespace -/

theorem mem_writes_namespace {n : String} {pods : List Pod} {r : identifiedWorkload}
    (h : r ∈ getPodsPerNamespace.writes n pods) : r.namespace_ = n := by
  rw [writes_eq_scanRecords, mem_scanRecords] at h
  obtain ⟨pod, _, c, _, _, rfl⟩ := h
  rfl

theorem nodup_getElem?_ne {targets : List String} (hnd : targets.Nodup) {i k : Nat}
    {n m : String} (hi : targets[i]? = some n) (hk : targets[k]? = some m) (hik : i ≠ k) :
    n ≠ m := by
  intro e
  subst e
  obtain ⟨hil, hi'⟩ := List.getElem?_eq_some.mp hi
  obtain ⟨hkl, hk'⟩ := List.getElem?_eq_some.mp hk
  exact hik ((List.Nodup.getElem_inj_iff hnd).mp (hi'.trans hk'.symm))

theorem filter_append_singleton_eq (n : String) (msgs : List identifiedWorkload)
    (cont : identifiedWorkload) (h : cont.namespace_ = n) :
    (msgs ++ [cont]).filter (fun r => r.namespace_ = n) =
      msgs.filter (fun r => r.namespace_ = n) ++ [cont] := by
  simp [List.filter_append, h]

theorem filter_append_singleton_ne (n : String) (msgs : List identifiedWorkload)
    (cont : identifiedWorkload) (h : cont.namespace_ ≠ n) :
    (msgs ++ [cont]).filter (fun r => r.namespace_ = n) =
      msgs.filter (fun r => r.namespace_ = n) := by
  simp [List.filter_append, h]

theorem step_order_inv {cl : Cluster} {targets : List String} {cap : Nat} {st : ScanState}
    (hnd : targets.Nodup) (h : ScanInv cl targets st) (ho : OrderInv cl targets st) (k : Nat) :
    OrderInv cl targets (step cap st k) := by
  rcases step_cases cap st k with e | ⟨m, _, hg, _, e⟩ | ⟨m, err, _, hg, _, e⟩ |
      ⟨cont, rest, _, hg, _, e⟩
  · rw [e]; exact ho
  · rw [e]
    intro i n g hi hgi
    have hk : k < st.goroutines.length := (List.getElem?_eq_some.mp hg).1
    by_cases hik : k = i
    · subst hik
      simp only [List.getElem?_set_self hk, Option.some.injEq] at hgi
      subst hgi
      have := ho k n _ hi hg
      simpa [Goroutine.pending, h.sameCluster] using this
    · simp only [List.getElem?_set_ne hik] at hgi
      exact ho i n g hi hgi
  · rw [e]
    intro i n g hi hgi
    exact ho i n g hi hgi
  · rw [e]
    intro i n g hi hgi
    have hk : k < st.goroutines.length := (List.getElem?_eq_some.mp hg).1
    have hkt : k < targets.length := by rw [← h.len]; exact hk
    have hnk : targets[k]? = some targets[k] := List.getElem?_eq_getElem hkt
    have hold := ho k _ _ hnk hg
    have hmem : cont ∈ getPodsPerNamespace.writes targets[k] (cl.podsOf targets[k]) := by
      rw [← hold]
      simp [Goroutine.pending]
    have hcont : cont.namespace_ = targets[k] := mem_writes_namespace hmem
    by_cases hik : k = i
    · subst hik
      simp only [List.getElem?_set_self hk, Option.some.injEq] at hgi
      subst hgi
      have hn : n = targets[k] := by
        rw [hnk] at hi
        exact (Option.some.inj hi).symm
      subst hn
      simp only [Goroutine.pending] at hold ⊢
      rw [filter_append_singleton_eq _ _ _ hcont, List.append_assoc]
      exact hold
    · simp only [List.getElem?_set_ne hik] at hgi
      have hne : cont.namespace_ ≠ n := by
        rw [hcont]
        exact nodup_getElem?_ne hnd hnk hi hik
      simp only [filter_append_singleton_ne _ _ _ hne]
      exact ho i n g hi hgi

theorem foldl_order_inv {cl : Cluster} {targets : List String} {cap : Nat}
    (hok : ∀ n ∈ targets, cl.listPodsErr n = none) (hnd : targets.Nodup) (sched : List Nat) :
    ∀ st : ScanState, ScanInv cl targets st → OrderInv cl targets st →
      OrderInv cl targets (sched.foldl (step cap) st) := by
  induction sched with
  | nil => intro st _ h; exact h
  | cons i sched ih =>
    intro st h ho
    exact ih _ (step_inv hok h i) (step_order_inv hnd h ho i)

theorem initial_order_inv (cl : Cluster) (targets : List String) (calls : List ApiCall) :
    OrderInv cl targets
      { clientset := { cluster := cl, calls := calls }
        goroutines := targets.map Goroutine.spawned
        messages := []
        panicked := none } := by
  intro i n g hi hg
  simp only [List.getElem?_map, hi, Option.map_some', Option.some.injEq] at hg
  subst hg
  simp [Goroutine.pending]

/-- When the run completes, the records of each namespace are in the channel in
the order its worker wrote them, whatever the schedule. -/
theorem scan_filter {cl : Cluster} {targets : List String} {cap : Nat}
    (hok : ∀ n ∈ targets, cl.listPodsErr n = none) (hnd : targets.Nodup)
    (hcap : (allWrites cl targets).length ≤ cap) (calls : List ApiCall) (sched : List Nat)
    (n : String) :
    (scan { cluster := cl, calls := calls } targets cap sched).messages.filter
        (fun r => r.namespace_ = n) =
      if n ∈ targets then getPodsPerNamespace.writes n (cl.podsOf n) else [] := by
  obtain ⟨_, hall, hperm⟩ := scan_completes hok hcap calls sched
  have h0 := initial_inv cl targets calls
  have ho : OrderInv cl targets (scan { cluster := cl, calls := calls } targets cap sched) :=
    foldl_order_inv hok hnd _ _ h0 (initial_order_inv cl targets calls)
  have hinv : ScanInv cl targets (scan { cluster := cl, calls := calls } targets cap sched) :=
    foldl_step_inv cap hok _ _ h0
  by_cases hn : n ∈ targets
  · rw [if_pos hn]
    obtain ⟨i, hi⟩ := List.mem_iff_getElem?.mp hn
    have hil : i < (scan { cluster := cl, calls := calls } targets cap sched).goroutines.length := by
      rw [hinv.len]; exact (List.getElem?_eq_some.mp hi).1
    have hg := List.getElem?_eq_getElem hil
    have hfin := (List.all_eq_true.mp hall) _ (List.getElem_mem hil)
    have hnil : (scan { cluster := cl, calls := calls } targets cap sched).goroutines[i] =
        Goroutine.running [] := by
      generalize (scan { cluster := cl, calls := calls } targets cap sched).goroutines[i] = g
        at hfin
      cases g with
      | spawned m => simp [Goroutine.finished] at hfin
      | running rest =>
        cases rest with
        | nil => rfl
        | cons c rest => simp [Goroutine.finished] at hfin
    have := ho i n _ hi hg
    rw [hnil] at this
    simpa [Goroutine.pending] using this
  · rw [if_neg hn, List.filter_eq_nil_iff]
    intro r hr
    have hr' : r ∈ allWrites cl targets := hperm.mem_iff.mp hr
    obtain ⟨m, hm, hrm⟩ := List.mem_flatMap.mp hr'
    have := mem_writes_namespace hrm
    simp only [decide_eq_true_eq]
    intro e
    exact hn (e ▸ this ▸ hm)

/-- A list sorted by namespace is determined by the lists of its records of
each namespace. -/
theorem sorted_unique : ∀ (l1 l2 : List identifiedWorkload),
    l1.Pairwise nsLE → l2.Pairwise nsLE →
    (∀ n : String, l1.filter (fun r => r.namespace_ = n) =
      l2.filter (fun r => r.namespace_ = n)) → l1 = l2 := by
  intro l1
  induction l1 with
  | nil =>
    intro l2 _ _ h
    cases l2 with
    | nil => rfl
    | cons y t2 =>
      have := h y.namespace_
      simp at this
  | cons x t1 ih =>
    intro l2 hs1 hs2 h
    cases l2 with
    | nil =>
      have := h x.namespace_
      simp at this
    | cons y t2 =>
      have hs1' := List.pairwise_cons.mp hs1
      have hs2' := List.pairwise_cons.mp hs2
      have hx2 : x ∈ y :: t2 := by
        have : x ∈ (y :: t2).filter (fun r => r.namespace_ = x.namespace_) := by
          rw [← h x.namespace_]; simp
        exact (List.mem_filter.mp this).1
      have hy1 : y ∈ x :: t1 := by
        have : y ∈ (x :: t1).filter (fun r => r.namespace_ = y.namespace_) := by
          rw [h y.namespace_]; simp
        exact (List.mem_filter.mp this).1
      have hxy : x.namespace_.data ≤ y.namespace_.data := by
        rcases List.mem_cons.mp hy1 with e | e
        · rw [e]
        · exact hs1'.1 y e
      have hyx : y.namespace_.data ≤ x.namespace_.data := by
        rcases List.mem_cons.mp hx2 with e | e
        · rw [e]
        · exact hs2'.1 x e
      have hns : x.namespace_ = y.namespace_ := by
        have := le_antisymm hxy hyx
        exact String.ext this
      have hhead := h x.namespace_
      simp only [List.filter_cons, hns, decide_True, if_true] at hhead
      have hy' : decide (y.namespace_ = y.namespace_) = true := by simp
      simp only [hy', if_true, List.cons.injEq] at hhead
      obtain ⟨hxy', htail⟩ := hhead
      subst hxy'
      have htl : ∀ n : String, t1.filter (fun r => r.namespace_ = n) =
          t2.filter (fun r => r.namespace_ = n) := by
        intro n
        by_cases hn : x.namespace_ = n
        · subst hn; exact htail
        · have := h n
          simpa [List.filter_cons, hn] using this
      rw [ih t2 hs1'.2 hs2'.2 htl]

theorem sorted_map_namespace_eq {l1 l2 : List identifiedWorkload} (hp : l1.Perm l2)
    (h1 : l1.Pairwise nsLE) (h2 : l2.Pairwise nsLE) :
    l1.map (fun r => r.namespace_) = l2.map (fun r => r.namespace_) := by
  have e : (l1.map (fun r => r.namespace_.data)) = (l2.map (fun r => r.namespace_.data)) := by
    apply List.eq_of_perm_of_sorted (r := (· ≤ ·)) (hp.map _)
    · exact List.pairwise_map.mpr h1
    · exact List.pairwise_map.mpr h2
  have hinj : Function.Injective String.data := fun a b hab => String.ext hab
  apply List.map_injective_iff.mpr hinj
  simpa [List.map_map, Function.comp] using e

theorem orderedInsert_filter (n : String) (a : identifiedWorkload) :
    ∀ l : List identifiedWorkload,
      (List.orderedInsert nsLE a l).filter (fun r => r.namespace_ = n) =
        (a :: l).filter (fun r => r.namespace_ = n) := by
  intro l
  induction l with
  | nil => simp
  | cons b l ih =>
    rw [List.orderedInsert]
    split
    · rfl
    · rename_i hab
      have hne : b.namespace_ ≠ a.namespace_ := by
        intro e
        apply hab
        unfold nsLE
        rw [e]
      rw [List.filter_cons, ih]
      by_cases han : a.namespace_ = n
      · have hbn : ¬ b.namespace_ = n := fun e => hne (e.trans han.symm)
        simp [List.filter_cons, han, hbn]
      · simp [List.filter_cons, han]

/-- Insertion sort keeps the records of every namespace in their order. -/
theorem stableSort_keepsTies (l : List identifiedWorkload) : keepsTies stableSort l := by
  intro n
  show (List.insertionSort nsLE l).filter (fun r => r.namespace_ = n) = _
  induction l with
  | nil => rfl
  | cons a l ih =>
    rw [List.insertionSort, orderedInsert_filter, List.filter_cons, ih, List.filter_cons]

/-- C9: with the gap-6 pass followed by insertion sort, which meets the contract
of sort.Sort, two runs on the unchanged cluster `sevenCluster` report different
sequences: when the worker of namespace a writes first the report is in
container order c1, ..., c6, c7, and when the worker of namespace b writes first
the report starts with the record of c6. -/
theorem C9_runs_differ :
    (rootCmd.Run shellThenInsertionSort sevenCluster "" []).outcome =
      Outcome.report
        [⟨"c1", "a", "nginx", "web"⟩, ⟨"c2", "a", "nginx", "web"⟩, ⟨"c3", "a", "nginx", "web"⟩,
          ⟨"c4", "a", "nginx", "web"⟩, ⟨"c5", "a", "nginx", "web"⟩, ⟨"c6", "a", "nginx", "web"⟩,
          ⟨"c7", "b", "redis", "db"⟩] ∧
    (rootCmd.Run shellThenInsertionSort sevenCluster "" [1, 1]).outcome =
      Outcome.report
        [⟨"c6", "a", "nginx", "web"⟩, ⟨"c1", "a", "nginx", "web"⟩, ⟨"c2", "a", "nginx", "web"⟩,
          ⟨"c3", "a", "nginx", "web"⟩, ⟨"c4", "a", "nginx", "web"⟩, ⟨"c5", "a", "nginx", "web"⟩,
          ⟨"c7", "b", "redis", "db"⟩] ∧
    (rootCmd.Run shellThenInsertionSort sevenCluster "" []).outcome ≠
      (rootCmd.Run shellThenInsertionSort sevenCluster "" [1, 1]).outcome := by
  refine ⟨by decide, by decide, by decide⟩

/-- C9 as amended: on an unchanged cluster whose listings all succeed (the names
of its namespaces being distinct and non-empty), any two schedules of the workers
both lead to a report; the two drained lists are equal as multisets and hold the
records of each namespace in the same order; the two sorted sequences are equal
as multisets and carry the same namespace at every position; and they are
identical element by element whenever the sort keeps, for every namespace, its
records in their drained order. -/
theorem C9_idempotence (S : SortImpl) (cl : Cluster) (flag : String) (s1 s2 : List Nat)
    (hpods : ∀ n, cl.listPodsErr n = none) (hns : cl.listNamespacesErr = none)
    (hnd : cl.namespaces.Nodup) (h0 : "" ∉ cl.namespaces) :
    ∃ (calls : List ApiCall) (targets : List String) (m1 m2 : List identifiedWorkload),
      m1 = (scan { cluster := cl, calls := calls } targets
        (channelCapacity cl.containerCount) s1).messages ∧
      m2 = (scan { cluster := cl, calls := calls } targets
        (channelCapacity cl.containerCount) s2).messages ∧
      (rootCmd.Run S cl flag s1).outcome = Outcome.report (S.sort m1) ∧
      (rootCmd.Run S cl flag s2).outcome = Outcome.report (S.sort m2) ∧
      m1.Perm m2 ∧
      (∀ n : String, m1.filter (fun r => r.namespace_ = n) =
        m2.filter (fun r => r.namespace_ = n)) ∧
      (S.sort m1).Perm (S.sort m2) ∧
      (S.sort m1).map (fun r => r.namespace_) = (S.sort m2).map (fun r => r.namespace_) ∧
      (keepsTies S m1 → keepsTies S m2 → S.sort m1 = S.sort m2) := by
  have core : ∀ (calls : List ApiCall) (targets : List String), targets.Nodup →
      "" ∉ targets →
      (∀ s, rootCmd.Run S cl flag s =
        dispatch S { cluster := cl, calls := calls } targets
          (channelCapacity cl.containerCount) s) →
      ∃ (calls : List ApiCall) (targets : List String) (m1 m2 : List identifiedWorkload),
        m1 = (scan { cluster := cl, calls := calls } targets
          (channelCapacity cl.containerCount) s1).messages ∧
        m2 = (scan { cluster := cl, calls := calls } targets
          (channelCapacity cl.containerCount) s2).messages ∧
        (rootCmd.Run S cl flag s1).outcome = Outcome.report (S.sort m1) ∧
        (rootCmd.Run S cl flag s2).outcome = Outcome.report (S.sort m2) ∧
        m1.Perm m2 ∧
        (∀ n : String, m1.filter (fun r => r.namespace_ = n) =
          m2.filter (fun r => r.namespace_ = n)) ∧
        (S.sort m1).Perm (S.sort m2) ∧
        (S.sort m1).map (fun r => r.namespace_) = (S.sort m2).map (fun r => r.namespace_) ∧
        (keepsTies S m1 → keepsTies S m2 → S.sort m1 = S.sort m2) := by
    intro calls targets hndt h0t hrun
    have hok : ∀ n ∈ targets, cl.listPodsErr n = none := fun n _ => hpods n
    have hcap : (allWrites cl targets).length ≤ channelCapacity cl.containerCount :=
      le_trans (allWrites_length_le cl _ hndt h0t) (le_channelCapacity _)
    obtain ⟨hp1, hall1, hperm1⟩ := scan_completes hok hcap calls s1
    obtain ⟨hp2, hall2, hperm2⟩ := scan_completes hok hcap calls s2
    have hm : (scan { cluster := cl, calls := calls } targets
        (channelCapacity cl.containerCount) s1).messages.Perm
        (scan { cluster := cl, calls := calls } targets
          (channelCapacity cl.containerCount) s2).messages := hperm1.trans hperm2.symm
    have hfil : ∀ n : String,
        (scan { cluster := cl, calls := calls } targets
          (channelCapacity cl.containerCount) s1).messages.filter (fun r => r.namespace_ = n) =
        (scan { cluster := cl, calls := calls } targets
          (channelCapacity cl.containerCount) s2).messages.filter (fun r => r.namespace_ = n) := by
      intro n
      rw [scan_filter hok hndt hcap calls s1 n, scan_filter hok hndt hcap calls s2 n]
    have hsp := ((S.perm _).trans hm).trans (S.perm _).symm
    refine ⟨calls, targets, _, _, rfl, rfl, ?_, ?_, hm, hfil, hsp, ?_, ?_⟩
    · rw [hrun s1]
      simp only [dispatch, hp1, hall1, if_true, drain_eq, List.nil_append]
    · rw [hrun s2]
      simp only [dispatch, hp2, hall2, if_true, drain_eq, List.nil_append]
    · exact sorted_map_namespace_eq hsp (sort_pairwise S _) (sort_pairwise S _)
    · intro k1 k2
      apply sorted_unique _ _ (sort_pairwise S _) (sort_pairwise S _)
      intro n
      rw [k1 n, k2 n, hfil n]
  by_cases hf : flag = ""
  · subst hf
    exact core _ cl.namespaces hnd h0 (fun s => Run_all S (hpods "") hns s)
  · exact core _ [flag] (List.nodup_singleton _)
      (by simp only [List.mem_singleton]; exact fun e => hf e.symm)
      (fun s => Run_flag S (hpods "") hf s)

/-- C9 as amended, on `sevenCluster` with insertion sort: the worker of a first,
or the worker of b first. -/
theorem C9_idempotence_witness :
    (∀ n, sevenCluster.listPodsErr n = none) ∧ sevenCluster.listNamespacesErr = none ∧
    sevenCluster.namespaces.Nodup ∧ "" ∉ sevenCluster.namespaces ∧
    ∃ (calls : List ApiCall) (targets : List String) (m1 m2 : List identifiedWorkload),
      m1 = (scan { cluster := sevenCluster, calls := calls } targets
        (channelCapacity sevenCluster.containerCount) []).messages ∧
      m2 = (scan { cluster := sevenCluster, calls := calls } targets
        (channelCapacity sevenCluster.containerCount) [1, 1]).messages ∧
      (rootCmd.Run stableSort sevenCluster "" []).outcome =
        Outcome.report (stableSort.sort m1) ∧
      (rootCmd.Run stableSort sevenCluster "" [1, 1]).outcome =
        Outcome.report (stableSort.sort m2) ∧
      m1.Perm m2 ∧
      (∀ n : String, m1.filter (fun r => r.namespace_ = n) =
        m2.filter (fun r => r.namespace_ = n)) ∧
      (stableSort.sort m1).Perm (stableSort.sort m2) ∧
      (stableSort.sort m1).map (fun r => r.namespace_) =
        (stableSort.sort m2).map (fun r => r.namespace_) ∧
      (keepsTies stableSort m1 → keepsTies stableSort m2 →
        stableSort.sort m1 = stableSort.sort m2) :=
  ⟨fun _ => rfl, rfl, by decide, by decide,
    C9_idempotence stableSort sevenCluster "" [] [1, 1] (fun _ => rfl) rfl
      (by decide) (by decide)⟩

/-! ## A failed pod listing -/

theorem foldl_stays_panicked (cap : Nat) (sched : List Nat) :
    ∀ st : ScanState, st.panicked.isSome = true →
      (sched.foldl (step cap) st).panicked.isSome = true := by
  induction sched with
  | nil => intro st h; exact h
  | cons i sched ih =>
    intro st h
    exact ih _ (step_stays_panicked cap st i h)

/-- A worker whose listing fails is still spawned, unless the process has died. -/
theorem step_fail_inv (cap : Nat) {st : ScanState} {i : Nat} {n : String} {e : GoError}
    (herr : st.clientset.cluster.listPodsErr n = some e)
    (h : st.panicked.isSome = true ∨ st.goroutines[i]? = some (Goroutine.spawned n)) (k : Nat) :
    ((step cap st k).panicked.isSome = true ∨
      (step cap st k).goroutines[i]? = some (Goroutine.spawned n)) ∧
    (k = i → (step cap st k).panicked.isSome = true) := by
  rcases h with hp | hg
  · exact ⟨Or.inl (step_stays_panicked cap st k hp), fun _ => step_stays_panicked cap st k hp⟩
  · by_cases hki : k = i
    · subst hki
      have : (step cap st k).panicked.isSome = true := by
        rcases Option.eq_none_or_eq_some st.panicked with hp | ⟨m, hp⟩
        · rw [step_spawned_err hp hg herr]; rfl
        · rw [step_panicked k hp, hp]; rfl
      exact ⟨Or.inl this, fun _ => this⟩
    · refine ⟨Or.inr ?_, fun e => absurd e hki⟩
      rw [step_goroutines_ne cap st hki]; exact hg

theorem foldl_fail {cap : Nat} {i : Nat} {n : String} {e : GoError} (sched : List Nat) :
    ∀ st : ScanState, st.clientset.cluster.listPodsErr n = some e →
      (st.panicked.isSome = true ∨ st.goroutines[i]? = some (Goroutine.spawned n)) →
      i ∈ sched → (sched.foldl (step cap) st).panicked.isSome = true := by
  induction sched with
  | nil => intro st _ _ hi; cases hi
  | cons k ks ih =>
    intro st herr h hi
    rw [List.foldl_cons]
    have hs := step_fail_inv cap herr h k
    by_cases hki : k = i
    · exact foldl_stays_panicked cap ks _ (hs.2 hki)
    · have hi' : i ∈ ks := by
        rcases List.mem_cons.mp hi with e1 | e1
        · exact absurd e1.symm hki
        · exact e1
      refine ih _ ?_ hs.1 hi'
      rw [step_cluster]; exact herr

theorem mem_completion {i workers : Nat} (h : i < workers) (cap : Nat) :
    i ∈ completion workers cap := by
  unfold completion
  rw [List.mem_flatMap]
  exact ⟨i, List.mem_range.mpr h, List.mem_replicate.mpr ⟨by omega, rfl⟩⟩

/-- A panic of the concurrent phase carries the error of a failed pod listing. -/
theorem foldl_panic_origin (cl : Cluster) (cap : Nat) (sched : List Nat) :
    ∀ st : ScanState, st.clientset.cluster = cl →
      (∀ msg, st.panicked = some msg → ∃ m, cl.listPodsErr m = some msg) →
      ∀ msg, (sched.foldl (step cap) st).panicked = some msg →
        ∃ m, cl.listPodsErr m = some msg := by
  induction sched with
  | nil => intro st _ h; exact h
  | cons k ks ih =>
    intro st hc h
    rw [List.foldl_cons]
    refine ih _ ((step_cluster cap st k).trans hc) ?_
    rcases step_cases cap st k with e | ⟨n, _, _, _, e⟩ | ⟨n, err, _, _, herr, e⟩ |
        ⟨c, rest, _, _, _, e⟩
    · rw [e]; exact h
    · rw [e]; exact h
    · rw [e]
      intro msg hmsg
      simp only [Option.some.injEq] at hmsg
      subst hmsg
      exact ⟨n, hc ▸ herr⟩
    · rw [e]; exact h

theorem dispatch_fatal (S : SortImpl) {cl : Cluster} {targets : List String} {n : String}
    {e : GoError} (hn : n ∈ targets) (herr : cl.listPodsErr n = some e)
    (calls : List ApiCall) (cap : Nat) (sched : List Nat) :
    ∃ msg, (dispatch S { cluster := cl, calls := calls } targets cap sched).outcome =
        Outcome.fatal msg ∧ ∃ m, cl.listPodsErr m = some msg := by
  obtain ⟨i, hi⟩ := List.mem_iff_getElem?.mp hn
  have hil : i < targets.length := (List.getElem?_eq_some.mp hi).1
  have hsome : (scan { cluster := cl, calls := calls } targets cap sched).panicked.isSome
      = true := by
    unfold scan
    apply foldl_fail (n := n) (e := e) (i := i)
    · exact herr
    · right
      simp [List.getElem?_map, hi]
    · exact List.mem_append_right _ (mem_completion hil cap)
  obtain ⟨msg, hmsg⟩ := Option.isSome_iff_exists.mp hsome
  refine ⟨msg, ?_, ?_⟩
  · simp [dispatch, hmsg]
  · have := foldl_panic_origin cl cap
      (sched ++ completion targets.length cap)
      { clientset := { cluster := cl, calls := calls }
        goroutines := targets.map Goroutine.spawned
        messages := []
        panicked := none } rfl (fun _ h => by cases h) msg
    exact this hmsg

/-- C7: when the pod listing of a namespace of the scan target set fails, the
failure leaves getPodsPerNamespace as a panic that carries the error (the
function does not return), and under every schedule the run dies of a panic with
the error of a failed pod listing: no report is rendered, whatever the other
workers have written. -/
theorem C7_listing_failure_is_fatal :
    (∀ (n : String) (cs : Clientset) (e : GoError), cs.cluster.listPodsErr n = some e →
      (getPodsPerNamespace n cs).1 = Go.panic e) ∧
    (∀ (S : SortImpl) (cl : Cluster) (calls : List ApiCall) (targets : List String)
        (cap : Nat) (sched : List Nat) (n : String) (e : GoError),
      n ∈ targets → cl.listPodsErr n = some e →
      ∃ msg, (dispatch S { cluster := cl, calls := calls } targets cap sched).outcome =
          Outcome.fatal msg ∧ ∃ m, cl.listPodsErr m = some msg) ∧
    (∀ (S : SortImpl) (cl : Cluster) (flag : String) (sched : List Nat) (n : String)
        (e : GoError),
      cl.listPodsErr n = some e → (flag ≠ "" → n = flag) → (flag = "" → n ∈ cl.namespaces) →
      (∃ msg, (rootCmd.Run S cl flag sched).outcome = Outcome.fatal msg) ∧
      ∀ out, (rootCmd.Run S cl flag sched).outcome ≠ Outcome.report out) := by
  refine ⟨?_, ?_, ?_⟩
  · intro n cs e h
    rw [getPodsPerNamespace_err h]
  · intro S cl calls targets cap sched n e hn herr
    exact dispatch_fatal S hn herr calls cap sched
  · intro S cl flag sched n e herr hflag hall
    have hfatal : ∃ msg, (rootCmd.Run S cl flag sched).outcome = Outcome.fatal msg := by
      cases h : cl.listPodsErr "" with
      | some e0 => exact ⟨e0, by rw [Run_estimate_err S h]⟩
      | none =>
        by_cases hf : flag = ""
        · subst hf
          cases hn : cl.listNamespacesErr with
          | some e1 => exact ⟨e1, by rw [Run_all_err S h hn]⟩
          | none =>
            obtain ⟨msg, hmsg, _⟩ := dispatch_fatal S (hall rfl) herr
              [ApiCall.listPods "", ApiCall.listNamespaces]
              (channelCapacity cl.containerCount) sched
            exact ⟨msg, by rw [Run_all S h hn]; exact hmsg⟩
        · have hn : n ∈ [flag] := by rw [hflag hf]; exact List.mem_singleton_self _
          obtain ⟨msg, hmsg, _⟩ := dispatch_fatal S hn herr [ApiCall.listPods ""]
            (channelCapacity cl.containerCount) sched
          exact ⟨msg, by rw [Run_flag S h hf]; exact hmsg⟩
    refine ⟨hfatal, ?_⟩
    intro out hout
    obtain ⟨msg, hmsg⟩ := hfatal
    rw [hmsg] at hout
    cases hout

/-- C7 on `failingCluster`: the listing of namespace a fails after the worker
of namespace b has written its record. -/
theorem C7_listing_failure_is_fatal_witness :
    failingCluster.listPodsErr "a" = some "pods is forbidden" ∧
    "a" ∈ failingCluster.namespaces ∧
    (scan { cluster := failingCluster, calls := [] } ["a", "b"] 3 [1, 1]).messages =
      [⟨"c3", "b", "app:latest", "pod"⟩] ∧
    (rootCmd.Run stableSort failingCluster "" [1, 1]).outcome =
      Outcome.fatal "pods is forbidden" ∧
    ((∃ msg, (rootCmd.Run stableSort failingCluster "" [1, 1]).outcome = Outcome.fatal msg) ∧
      ∀ out, (rootCmd.Run stableSort failingCluster "" [1, 1]).outcome ≠ Outcome.report out) :=
  ⟨rfl, by decide, by decide, by decide,
    C7_listing_failure_is_fatal.2.2 stableSort failingCluster "" [1, 1] "a" "pods is forbidden"
      rfl (fun h => absurd rfl h) (fun _ => by decide)⟩

/-! ## The requests of a run with an explicit namespace -/

theorem dispatch_calls (S : SortImpl) (cs : Clientset) (targets : List String) (cap : Nat)
    (sched : List Nat) :
    (dispatch S cs targets cap sched).calls = (scan cs targets cap sched).clientset.calls := by
  unfold dispatch
  simp only
  split
  · rfl
  · split <;> rfl

/-- Once the only worker has sent its request, no further request is sent. -/
theorem step_single_after {cap : Nat} {st : ScanState} {calls : List ApiCall}
    (h : (st.panicked.isSome = true ∨
        ∀ (i : Nat) (m : String), st.goroutines[i]? ≠ some (Goroutine.spawned m)) ∧
      st.clientset.calls = calls) (k : Nat) :
    ((step cap st k).panicked.isSome = true ∨
        ∀ (i : Nat) (m : String),
          (step cap st k).goroutines[i]? ≠ some (Goroutine.spawned m)) ∧
      (step cap st k).clientset.calls = calls := by
  obtain ⟨h1, h2⟩ := h
  rcases h1 with hp | hno
  · obtain ⟨m, hm⟩ := Option.isSome_iff_exists.mp hp
    rw [step_panicked k hm]
    exact ⟨Or.inl hp, h2⟩
  · rcases step_cases cap st k with e | ⟨n, _, hg, _, _⟩ | ⟨n, err, _, hg, _, _⟩ |
        ⟨c, rest, _, hg, _, e⟩
    · rw [e]; exact ⟨Or.inr hno, h2⟩
    · exact absurd hg (hno k n)
    · exact absurd hg (hno k n)
    · rw [e]
      refine ⟨Or.inr ?_, h2⟩
      intro i m hi
      simp only [List.getElem?_set] at hi
      split at hi
      · split at hi
        · cases hi
        · cases hi
      · exact hno i m hi

theorem foldl_single_after {cap : Nat} {calls : List ApiCall} (sched : List Nat) :
    ∀ st : ScanState,
      ((st.panicked.isSome = true ∨
        ∀ (i : Nat) (m : String), st.goroutines[i]? ≠ some (Goroutine.spawned m)) ∧
      st.clientset.calls = calls) →
      (sched.foldl (step cap) st).clientset.calls = calls := by
  induction sched with
  | nil => intro st h; exact h.2
  | cons k ks ih =>
    intro st h
    exact ih _ (step_single_after h k)

theorem foldl_single {cap : Nat} {ns : String} {calls : List ApiCall} (sched : List Nat) :
    ∀ st : ScanState, st.goroutines = [Goroutine.spawned ns] → st.panicked = none →
      st.clientset.calls = calls → 0 ∈ sched →
      (sched.foldl (step cap) st).clientset.calls = calls ++ [ApiCall.listPods ns] := by
  induction sched with
  | nil => intro st _ _ _ h; cases h
  | cons k ks ih =>
    intro st hg hp hc hmem
    rw [List.foldl_cons]
    by_cases hk : k = 0
    · subst hk
      have hg0 : st.goroutines[0]? = some (Goroutine.spawned ns) := by rw [hg]; rfl
      apply foldl_single_after
      cases hl : st.clientset.cluster.listPodsErr ns with
      | none =>
        rw [step_spawned_ok hp hg0 hl]
        refine ⟨Or.inr ?_, by simp [hc]⟩
        intro i m hi
        simp only [hg, List.set_cons_zero] at hi
        cases i with
        | zero => simp at hi
        | succ i => simp at hi
      | some e =>
        rw [step_spawned_err hp hg0 hl]
        exact ⟨Or.inl rfl, by simp [hc]⟩
    · have habs : st.goroutines[k]? = none := by
        rw [hg]
        cases k with
        | zero => exact absurd rfl hk
        | succ k => rfl
      have hmem' : 0 ∈ ks := by
        rcases List.mem_cons.mp hmem with e | e
        · exact absurd e.symm hk
        · exact e
      rw [step_absent habs]
      exact ih st hg hp hc hmem'

theorem dispatch_single_calls (S : SortImpl) (cl : Cluster) (calls : List ApiCall)
    (ns : String) (cap : Nat) (sched : List Nat) :
    (dispatch S { cluster := cl, calls := calls } [ns] cap sched).calls =
      calls ++ [ApiCall.listPods ns] := by
  rw [dispatch_calls]
  unfold scan
  apply foldl_single
  · rfl
  · rfl
  · rfl
  · exact List.mem_append_right _ (mem_completion (by simp) cap)

/-- C8: with the namespace flag b on the cluster of the end-to-end scenario the
run sends two requests, the pod listing across all namespaces of the capacity
estimate and the pod listing of b; the first is not a query of b, and its answer
holds the pod of namespace a. -/
theorem C8_other_namespaces_are_listed :
    (rootCmd.Run stableSort exampleCluster "b" []).calls =
      [ApiCall.listPods "", ApiCall.listPods "b"] ∧
    ¬ (∀ call ∈ (rootCmd.Run stableSort exampleCluster "b" []).calls,
        call = ApiCall.listPods "b") ∧
    (Clientset.listPods { cluster := exampleCluster, calls := [] } "").1 =
      Except.ok
        [ { Namespace := "a", Name := "pod", Containers := [{ Name := "c1", Image := "redis" }] },
          { Namespace := "b", Name := "pod",
            Containers := [{ Name := "c2", Image := "redis:7.2" },
              { Name := "c3", Image := "app:latest" }] } ] := by
  refine ⟨by decide, by decide, rfl⟩

/-- C8 as amended: for a non-empty namespace flag ns the scan target set is
exactly [ns] and is built without a request to the cluster; the run sends the pod
listing across all namespaces for the capacity estimate and then, if that
succeeds, the pod listing of ns and no other request, so that no namespace
listing and no pod listing of another single namespace is made; without the flag
the target set is the names of the cluster's namespace listing in the order
returned. -/
theorem C8_targets_and_requests :
    (∀ (ns : String) (cs : Clientset), ns ≠ "" →
      targetNamespaces ns cs = (Go.ret [ns], cs)) ∧
    (∀ (S : SortImpl) (cl : Cluster) (ns : String) (sched : List Nat), ns ≠ "" →
      (cl.listPodsErr "" = none →
        (rootCmd.Run S cl ns sched).calls = [ApiCall.listPods "", ApiCall.listPods ns]) ∧
      (∀ e, cl.listPodsErr "" = some e →
        (rootCmd.Run S cl ns sched).calls = [ApiCall.listPods ""]) ∧
      (∀ call ∈ (rootCmd.Run S cl ns sched).calls,
        call = ApiCall.listPods "" ∨ call = ApiCall.listPods ns)) ∧
    (∀ cs : Clientset, cs.cluster.listNamespacesErr = none →
      (targetNamespaces "" cs).1 = Go.ret cs.cluster.namespaces ∧
      (targetNamespaces "" cs).2.calls = cs.calls ++ [ApiCall.listNamespaces]) := by
  refine ⟨?_, ?_, ?_⟩
  · intro ns cs h
    exact targetNamespaces_flag h cs
  · intro S cl ns sched hns
    have h1 : cl.listPodsErr "" = none →
        (rootCmd.Run S cl ns sched).calls = [ApiCall.listPods "", ApiCall.listPods ns] := by
      intro h
      rw [Run_flag S h hns, dispatch_single_calls]
      rfl
    have h2 : ∀ e, cl.listPodsErr "" = some e →
        (rootCmd.Run S cl ns sched).calls = [ApiCall.listPods ""] := by
      intro e h
      rw [Run_estimate_err S h]
    refine ⟨h1, h2, ?_⟩
    intro call hc
    cases h : cl.listPodsErr "" with
    | none =>
      rw [h1 h] at hc
      simpa using hc
    | some e =>
      rw [h2 e h] at hc
      left
      simpa using hc
  · intro cs h
    rw [targetNamespaces_all_ok cs h]
    exact ⟨rfl, rfl⟩

/-- C8 as amended, on the end-to-end scenario with the namespace flag b. -/
theorem C8_targets_and_requests_witness :
    ("b" : String) ≠ "" ∧
    targetNamespaces "b" { cluster := exampleCluster, calls := [ApiCall.listPods ""] } =
      (Go.ret ["b"], { cluster := exampleCluster, calls := [ApiCall.listPods ""] }) ∧
    exampleCluster.listNamespacesErr = none ∧
    (targetNamespaces "" { cluster := exampleCluster, calls := [] }).1 = Go.ret ["a", "b"] ∧
    (targetNamespaces "" { cluster := exampleCluster, calls := [] }).2.calls =
      [ApiCall.listNamespaces] :=
  ⟨by decide,
    C8_targets_and_requests.1 "b" { cluster := exampleCluster, calls := [ApiCall.listPods ""] }
      (by decide),
    rfl,
    (C8_targets_and_requests.2.2 { cluster := exampleCluster, calls := [] } rfl).1,
    (C8_targets_and_requests.2.2 { cluster := exampleCluster, calls := [] } rfl).2⟩

/-! ## The claims at concrete inputs -/

/-- C1 at the image "nginx", which has no ':'. -/
theorem C1_unpinned_iff_witness :
    ':' ∉ ("nginx" : String).data ∧ unpinned "nginx" = true :=
  ⟨by decide, C1_unpinned_iff.2.1 "nginx" (by decide)⟩

/-- C2 on the pods of namespace b of the end-to-end scenario. -/
theorem C2_getPodsPerNamespace_writes_witness :
    exampleCluster.listPodsErr "b" = none ∧
    exampleCluster.podsOf "b" =
      [{ Namespace := "b", Name := "pod",
         Containers := [{ Name := "c2", Image := "redis:7.2" },
           { Name := "c3", Image := "app:latest" }] }] ∧
    (getPodsPerNamespace "b" { cluster := exampleCluster, calls := [] }).1 =
      Go.ret (getPodsPerNamespace.writes "b"
        [{ Namespace := "b", Name := "pod",
           Containers := [{ Name := "c2", Image := "redis:7.2" },
             { Name := "c3", Image := "app:latest" }] }], none) ∧
    getPodsPerNamespace.writes "b"
        [{ Namespace := "b", Name := "pod",
           Containers := [{ Name := "c2", Image := "redis:7.2" },
             { Name := "c3", Image := "app:latest" }] }] =
      [⟨"c3", "b", "app:latest", "pod"⟩] :=
  ⟨rfl, by decide,
    (C2_getPodsPerNamespace_writes "b"
      [{ Namespace := "b", Name := "pod",
         Containers := [{ Name := "c2", Image := "redis:7.2" },
           { Name := "c3", Image := "app:latest" }] }]).2.1
      { cluster := exampleCluster, calls := [] } rfl (by decide),
    by decide⟩

/-- C6 on the cluster of the end-to-end scenario: three containers, capacity 3,
two records written. -/
theorem C6_capacity_witness :
    exampleCluster.listPodsErr "" = none ∧
    (getTotalNumberOfContainers { cluster := exampleCluster, calls := [] }).1 = Except.ok 3 ∧
    exampleCluster.containerCount + exampleCluster.containerCount / 10 = 3 ∧
    ["a", "b"].Nodup ∧ "" ∉ ["a", "b"] ∧
    (["a", "b"].map (fun n =>
      (getPodsPerNamespace.writes n (exampleCluster.podsOf n)).length)).sum ≤ 3 ∧
    (scan { cluster := exampleCluster, calls := [] } ["a", "b"] 3 [1, 0, 1]).goroutines.all
      Goroutine.finished = true :=
  ⟨rfl, (C6_capacity exampleCluster rfl).1 [], by decide, by decide, by decide,
    ((C6_capacity exampleCluster rfl).2.2.2.2 ["a", "b"] (by decide) (by decide)
      (fun _ _ => rfl)).1,
    (((C6_capacity exampleCluster rfl).2.2.2.2 ["a", "b"] (by decide) (by decide)
      (fun _ _ => rfl)).2 stableSort [] [1, 0, 1]).1⟩

end Podscanner
